import Mathlib

/-!
# xelogstash: `processAgentJobs` (src/app/process_agent.go)

A shallow embedding of the agent-job extraction run: the scan loop over the
rows returned by the connector, the record that is built and projected for
every accepted row, the fan-out to the sinks, and the flush / clean / commit
sequence that ends a run.

Everything the function calls outside of its own file (database handle,
status file, sinks, JSON serialisation, field modifications) is taken as a
parameter.  Every such call appends an `Event` that records the call together
with its outcome, and every outcome may depend on the whole history of the run
so far, so that a theorem quantified over the environment covers every
behaviour of the collaborators.

Times are instants on an integer axis (`time.Time.Before` / `After` are the
strict order), Go `int` / `int64` are unbounded integers, a Go `error` is an
`Option Err` (`none` is `nil`).  Log output and the process-wide counters
(`readCount`, `totalCount`, `eventCount`, `serverCount`) are not embedded; the
counters other than `readCount` move together with `result.Rows`.
-/

namespace XeLogstash

/-! ## Data model -/

abbrev Err := String

abbrev Time := Int

/-- `errors.Wrap(err, msg)` / `errors.Wrapf` for a non-nil `err`: the message
is put in front of the cause. -/
def wrap (e : Err) (msg : String) : Err := msg ++ ": " ++ e

/-- Modelled from the spec: the severities of the `logstash` package that the
function uses (`logstash.Error`, `logstash.Warning`, `logstash.Info`); the
package is not part of the file. -/
inductive Severity
  | Error
  | Warning
  | Info
  deriving DecidableEq, Repr

/-- Modelled from the spec: a value stored in a `logstash.Record`
(`map[string]interface{}`, a tree-shaped mapping from field name to scalar or
nested value): the dynamic types this function stores, `null` being the `nil`
interface that an index of an absent key yields. -/
inductive Value
  | null
  | str (s : String)
  | int (n : Int)
  | time (t : Time)
  | sev (s : Severity)
  | record (fields : String → Option Value)

/-- Modelled from the spec: a `logstash.Record`, a Go map from field name to
value.  A map is determined by what each key holds, so it is a lookup
function; `none` is an absent key. -/
abbrev Record := String → Option Value

/-- Modelled from the spec: `logstash.NewRecord()`, which is not part of the
file, returns the empty map. -/
def NewRecord : Record := fun _ => none

/-- The map assignment `r[k] = v`, which `Record.Set(k, v)` of the `logstash`
package performs: the field is inserted or overwritten. -/
def Record.Set (r : Record) (k : String) (v : Value) : Record :=
  fun x => if x = k then some v else r x

/-- The index expression `r[k]`: the stored value, or `nil` for an absent key. -/
def Record.index (r : Record) (k : String) : Value :=
  (r k).getD Value.null

/-- Builtin `delete(r, k)`. -/
def Record.delete (r : Record) (k : String) : Record :=
  fun x => if x = k then none else r x

/-- The loop `for k, v := range src { dst[k] = v }`: every entry of `src` is
assigned into `dst`. -/
def Record.copyFrom (dst src : Record) : Record :=
  fun x => match src x with
    | some v => some v
    | none => dst x

/-- Modelled from the spec: `Record.SetIfEmpty(k, v)` of the `logstash`
package, which is not part of the file, taken by its name: it assigns only
when the key holds nothing yet. -/
def Record.SetIfEmpty (r : Record) (k : String) (v : Value) : Record :=
  fun x => if x = k then (match r k with
    | some old => some old
    | none => some v) else r x

/-- The row type `jobResult`, with the fields that `rows.Scan` and
`time.Parse` fill. -/
structure jobResult where
  Name : String
  InstanceID : Int
  JobID : String
  StepID : Int
  StepName : String
  JobName : String
  Message : String
  RunStatus : Int
  RunDuration : Int
  TimestampLocal : Time
  TimestampUTC : Time
  deriving DecidableEq, Repr

/-- Modelled from the spec: what `GetInstance` returns about the server, with
the fields the function reads. -/
structure InstanceInfo where
  Domain : String
  Computer : String
  Server : String
  Version : String
  ProductVersion : String
  deriving DecidableEq, Repr

/-- Modelled from the spec: the delivery mode `source.AgentJobs` of the `config`
package (`All` or `FailedOnly`): the two constants the function compares with
(`config.JobsAll`, `config.JobsFailed`) and any other value. -/
inductive JobsMode
  | JobsAll
  | JobsFailed
  | other (s : String)
  deriving DecidableEq, Repr

/-- Modelled from the spec: the fields of `config.Source` that the function
reads (`Prefix` is only handed to `SwitchV2`). -/
structure Source where
  FQDN : String
  Rows : Int
  StartAt : Time
  StopAt : Time
  AgentJobs : JobsMode
  PayloadField : String
  TimestampField : String
  Adds : List String
  Copies : List String
  Moves : List String
  deriving DecidableEq, Repr

/-- Modelled from the spec: the returned `Result` (session, instance, source,
count of delivered records). -/
structure Result where
  Session : String
  Instance : String
  Source : Source
  Rows : Int
  deriving DecidableEq, Repr

/-- One call to a collaborator, in the order the run makes them, with the
error it returned (`none` is success).  Sinks are named by their position in
the `sinks` slice. -/
inductive Event
  | switchV2 (err : Option Err)
  | checkDupe (err : Option Err)
  | newFile (err : Option Err)
  | getOffset (err : Option Err)
  | sinkOpen (i : Nat) (id : String) (err : Option Err)
  | query (last : Int) (err : Option Err)
  | write (i : Nat) (name rs : String) (err : Option Err)
  | save (cursor : Int) (err : Option Err)
  | flush (i : Nat) (err : Option Err)
  | clean (i : Nat) (err : Option Err)
  | done (cursor : Int) (err : Option Err)
  | sinkClose (i : Nat)
  | dbClose
  deriving DecidableEq, Repr

/-- Modelled from the spec: a `sink.Sinker` with the methods of the sink
contract (`Close` returns an error the function drops).  Each method sees the
history of the run up to the call, so a sink may answer every call
differently. -/
structure Sinker where
  Name : String
  Open : List Event → String → Option Err
  Write : List Event → String → String → Option Err
  Flush : List Event → Option Err
  Clean : List Event → Option Err

/-- One `rows.Next()` that returned true: either `rows.Scan` fails, or it
fills a row and hands over the text of `timestamp_utc`, which `time.Parse`
turns into an instant or rejects. -/
inductive Fetched
  | scanErr (e : Err)
  | row (j : jobResult) (tsutc : Except Err Time)

/-- The collaborators other than the sinks: database handle, concurrency
guard and status file of the `status` package, the `logstash` helpers
`ToJSON`, `ProcessMods` and `Severity.String`, and `safeClose`, which is
deferred with the address of the returned error and may replace it. -/
structure Env where
  connectionString : Except Err String
  sqlOpen : Option Err
  ping : Option Err
  getInstance : Except Err InstanceInfo
  switchV2 : Option Err
  checkDupe : Option Err
  newFile : Option Err
  getOffset : Except Err Int
  query : Int → Except Err (List Fetched)
  save : List Event → Int → Option Err
  done : List Event → Int → Option Err
  toJSON : Record → Except Err String
  processMods : String → List String → List String → List String → Except Err String
  sevString : Severity → String
  safeClose : List Event → Option Err → Option Err

/-! ## Building the record of a row (lines 229-287) -/

/-- The `switch j.RunStatus` of lines 238-263. -/
def setRunStatus (env : Env) (base : Record) (runStatus : Int) : Record :=
  if runStatus = 0 then
    ((base.Set "run_status_text" (Value.str "failed")).Set
      "xe_severity_value" (Value.sev Severity.Error)).Set
      "xe_severity_keyword" (Value.str (env.sevString Severity.Error))
  else if runStatus = 1 then
    ((base.Set "run_status_text" (Value.str "succeeded")).Set
      "xe_severity_value" (Value.sev Severity.Info)).Set
      "xe_severity_keyword" (Value.str (env.sevString Severity.Info))
  else if runStatus = 2 then
    ((base.Set "run_status_text" (Value.str "retry")).Set
      "xe_severity_value" (Value.sev Severity.Warning)).Set
      "xe_severity_keyword" (Value.str (env.sevString Severity.Warning))
  else if runStatus = 3 then
    ((base.Set "run_status_text" (Value.str "cancelled")).Set
      "xe_severity_value" (Value.sev Severity.Warning)).Set
      "xe_severity_keyword" (Value.str (env.sevString Severity.Warning))
  else if runStatus = 4 then
    ((base.Set "run_status_text" (Value.str "inprogress")).Set
      "xe_severity_value" (Value.sev Severity.Info)).Set
      "xe_severity_keyword" (Value.str (env.sevString Severity.Info))
  else
    ((base.Set "run_status_text" (Value.str "undefined")).Set
      "xe_severity_value" (Value.sev Severity.Warning)).Set
      "xe_severity_keyword" (Value.str (env.sevString Severity.Warning))

/-- The `switch j.Name` of lines 278-284 (`fmt.Sprintf` with `%s` and `%d`). -/
def description (j : jobResult) : String :=
  if j.Name = "agent_job" then
    j.JobName ++ ": " ++ j.Message
  else if j.Name = "agent_job_step" then
    j.JobName ++ ": [" ++ toString j.StepID ++ "] " ++ j.StepName ++ ": " ++ j.Message
  else ""

/-- Lines 229-287: the canonical record `base` of a row. -/
def buildBase (env : Env) (info : InstanceInfo) (j : jobResult) : Record :=
  let base := NewRecord
  let base := base.Set "name" (Value.str j.Name)
  let base := base.Set "instance_id" (Value.int j.InstanceID)
  let base := base.Set "job_id" (Value.str j.JobID)
  let base := base.Set "step_id" (Value.int j.StepID)
  let base := base.Set "step_name" (Value.str j.StepName)
  let base := base.Set "job_name" (Value.str j.JobName)
  let base := base.Set "message" (Value.str j.Message)
  let base := base.Set "run_status" (Value.int j.RunStatus)
  let base := setRunStatus env base j.RunStatus
  let base := base.Set "run_duration" (Value.int j.RunDuration)
  let base := base.Set "timestamp" (Value.time j.TimestampUTC)
  let base := base.Set "timestamp_local" (Value.time j.TimestampLocal)
  let base := base.Set "timestamp_utc_calculated" (Value.time j.TimestampUTC)
  let base := base.Set "mssql_domain" (Value.str info.Domain)
  let base := base.Set "mssql_computer" (Value.str info.Computer)
  let base := base.Set "mssql_server_name" (Value.str info.Server)
  let base := base.Set "mssql_version" (Value.str info.Version)
  let base := base.Set "mssql_product_version" (Value.str info.ProductVersion)
  let base := base.SetIfEmpty "server_instance_name" (Value.str info.Server)
  if (description j).length > 0 then
    base.Set "xe_description" (Value.str (description j))
  else base

/-- The condition of lines 290-291: the delivery-mode filter. -/
def deliver (source : Source) (j : jobResult) : Bool :=
  source.AgentJobs = JobsMode.JobsAll ||
    (source.AgentJobs = JobsMode.JobsFailed &&
      (j.RunStatus = 0 || j.RunStatus = 2 || j.RunStatus = 3))

/-- Lines 292-307: the record `lr` that is serialised, from `base`. -/
def project (source : Source) (base : Record) : Record :=
  let lr := NewRecord
  let lr :=
    if source.PayloadField = "" then
      lr.copyFrom base
    else
      (lr.Set source.PayloadField (Value.record base)).Set
        source.TimestampField (base.index "timestamp")
  if source.TimestampField ≠ "timestamp" ∧ source.PayloadField = "" then
    (lr.Set source.TimestampField (base.index "timestamp")).delete "timestamp"
  else lr

/-! ## The run -/

/-- The local variables of the scan loop that survive an iteration, and the
calls made so far. -/
structure LoopState where
  result : Result
  instanceID : Int
  gotRows : Bool
  startAtHit : Bool
  trace : List Event

/-- How one iteration of `for rows.Next()` ends: it goes on to the next row
(also by `continue`), it leaves the loop by `break`, or it returns from the
function with an error. -/
inductive Step
  | next (st : LoopState)
  | brk (st : LoopState)
  | ret (st : LoopState) (err : Err)

/-- Lines 353-360: `Write` on the sinks in slice order, `i` being the index of
the first sink of the list; the first error ends the loop and is returned
wrapped. -/
def writeSinks : List Sinker → Nat → String → String → List Event →
    List Event × Option Err
  | [], _, _, _, tr => (tr, none)
  | s :: rest, i, name, rs, tr =>
    match s.Write tr name rs with
    | some e =>
      (tr ++ [Event.write i name rs (some e)], some (wrap e ("sink.write: " ++ s.Name)))
    | none => writeSinks rest (i + 1) name rs (tr ++ [Event.write i name rs none])

/-- Lines 372-378: `sf.Save` with the cursor of the row, then `gotRows = true`. -/
def saveRow (env : Env) (st : LoopState) (j : jobResult) : Step :=
  match env.save st.trace j.InstanceID with
  | some e =>
    Step.ret { st with trace := st.trace ++ [Event.save j.InstanceID (some e)] }
      (wrap e "status.Save")
  | none =>
    Step.next { st with trace := st.trace ++ [Event.save j.InstanceID none], gotRows := true }

/-- Lines 187-378: the body of the scan loop for one fetched row. -/
def loopBody (env : Env) (source : Source) (sinks : List Sinker) (info : InstanceInfo)
    (st : LoopState) (f : Fetched) : Step :=
  if source.Rows > 0 ∧ st.result.Rows ≥ source.Rows then Step.brk st
  else
    match f with
    | Fetched.scanErr e => Step.ret st (wrap e "rows.scan")
    | Fetched.row _ (Except.error e) => Step.ret st (wrap e "invalid utc from sql")
    | Fetched.row j0 (Except.ok t) =>
      let j : jobResult := { j0 with TimestampUTC := t }
      if j.TimestampUTC < source.StartAt then Step.next { st with startAtHit := true }
      else if j.TimestampUTC > source.StopAt then Step.brk st
      else
        let st : LoopState := { st with instanceID := j.InstanceID }
        let base := buildBase env info j
        if deliver source j then
          match env.toJSON (project source base) with
          | Except.error e => Step.ret st (wrap e "record.tojson")
          | Except.ok rs0 =>
            match env.processMods rs0 source.Adds source.Copies source.Moves with
            | Except.error e => Step.ret st (wrap e "logstash.processmods")
            | Except.ok rs =>
              match writeSinks sinks 0 j.Name rs st.trace with
              | (tr, some e) => Step.ret { st with trace := tr } e
              | (tr, none) =>
                saveRow env
                  { st with trace := tr, result := { st.result with Rows := st.result.Rows + 1 } } j
        else saveRow env st j

/-- Lines 185-379: the scan loop over the rows the query returns. The second
component is the error of a `return` inside the loop. -/
def scanLoop (env : Env) (source : Source) (sinks : List Sinker) (info : InstanceInfo) :
    LoopState → List Fetched → LoopState × Option Err
  | st, [] => (st, none)
  | st, f :: rest =>
    match loopBody env source sinks info st f with
    | Step.next st1 => scanLoop env source sinks info st1 rest
    | Step.brk st1 => (st1, none)
    | Step.ret st1 e => (st1, some e)

/-- Lines 384-395: `Flush` then `Clean` on every sink in slice order, keeping
the last error in `lastError`. -/
def flushClean : List Sinker → Nat → List Event → Option Err → List Event × Option Err
  | [], _, tr, lastError => (tr, lastError)
  | s :: rest, i, tr, lastError =>
    let rf := s.Flush tr
    let tr1 := tr ++ [Event.flush i rf]
    let le1 := match rf with
      | some e => some (wrap e ("sink.flush: " ++ s.Name))
      | none => lastError
    let rc := s.Clean tr1
    let tr2 := tr1 ++ [Event.clean i rc]
    let le2 := match rc with
      | some e => some (wrap e ("sink.clean: " ++ s.Name))
      | none => le1
    flushClean rest (i + 1) tr2 le2

/-- What the function hands back at a `return`: the result, the error, and the
calls made. -/
structure Outcome where
  result : Result
  err : Option Err
  trace : List Event

/-- Lines 381-406: flush and clean when a row was saved, then the commit
`sf.Done` when no flush or clean failed. -/
def finish (env : Env) (sinks : List Sinker) (st : LoopState) : Outcome :=
  if st.gotRows then
    match flushClean sinks 0 st.trace none with
    | (tr, some e) => { result := st.result, err := some e, trace := tr }
    | (tr, none) =>
      match env.done tr st.instanceID with
      | some e =>
        { result := st.result, err := some (wrap e "status.done"),
          trace := tr ++ [Event.done st.instanceID (some e)] }
      | none =>
        { result := st.result, err := none, trace := tr ++ [Event.done st.instanceID none] }
  else { result := st.result, err := none, trace := st.trace }

/-- A call registered by `defer`. -/
inductive Deferred
  | safeClose
  | sinkClose (i : Nat)
  deriving DecidableEq, Repr

/-- What the scan loop starts from, when the function gets that far: the
instance, the result so far, the resume cursor read by `GetOffset`, the rows
of the query, and the calls made. -/
structure Ready where
  info : InstanceInfo
  result : Result
  lastInstanceID : Int
  rows : List Fetched
  trace : List Event

/-- How lines 41-179 end: with a `return`, or in front of the scan loop. -/
inductive Setup
  | exit (o : Outcome)
  | ready (r : Ready)

/-- The call `strings.Replace(s, "\\", "_", -1)` of line 121: every backslash of
`s` becomes an underscore. -/
def replaceBackslash (s : String) : String :=
  String.mk (s.data.map (fun c => if c = Char.ofNat 92 then Char.ofNat 95 else c))

/-- Lines 120-127: `Open` on the sinks in slice order, each opened sink
deferring its `Close`.  `ds` is the stack of deferred calls, the most recent
first. -/
def openSinks : List Sinker → Nat → String → List Event → List Deferred →
    List Event × List Deferred × Option Err
  | [], _, _, tr, ds => (tr, ds, none)
  | s :: rest, i, id, tr, ds =>
    match s.Open tr id with
    | some e => (tr ++ [Event.sinkOpen i id (some e)], ds, some (wrap e ("sink: " ++ id)))
    | none =>
      openSinks rest (i + 1) id (tr ++ [Event.sinkOpen i id none]) (Deferred.sinkClose i :: ds)

/-- Lines 68-179, after both `safeClose` have been deferred: instance lookup,
concurrency guard, status file, resume cursor, opening of the sinks, query. -/
def guardAndOpen (env : Env) (sinks : List Sinker) (result : Result) :
    Setup × List Deferred :=
  let ds := [Deferred.safeClose, Deferred.safeClose]
  match env.getInstance with
  | Except.error e =>
    (Setup.exit { result := result, err := some (wrap e "getinstance"), trace := [] }, ds)
  | Except.ok info =>
    let result : Result := { result with Instance := info.Server }
    match env.switchV2 with
    | some e =>
      (Setup.exit { result := result, err := some (wrap e "status.switchv2"),
                    trace := [Event.switchV2 (some e)] }, ds)
    | none =>
      match env.checkDupe with
      | some e =>
        (Setup.exit { result := result, err := some (wrap e "dupe.check"),
                      trace := [Event.switchV2 none, Event.checkDupe (some e)] }, ds)
      | none =>
        match env.newFile with
        | some e =>
          (Setup.exit { result := result, err := some (wrap e "status.newfile"),
                        trace := [Event.switchV2 none, Event.checkDupe none,
                          Event.newFile (some e)] }, ds)
        | none =>
          match env.getOffset with
          | Except.error e =>
            (Setup.exit { result := result, err := some (wrap e "status.getoffset"),
                          trace := [Event.switchV2 none, Event.checkDupe none,
                            Event.newFile none, Event.getOffset (some e)] }, ds)
          | Except.ok lastInstanceID =>
            match openSinks sinks 0 (replaceBackslash info.Server)
                [Event.switchV2 none, Event.checkDupe none, Event.newFile none,
                  Event.getOffset none] ds with
            | (tr, ds1, some e) =>
              (Setup.exit { result := result, err := some e, trace := tr }, ds1)
            | (tr, ds1, none) =>
              match env.query lastInstanceID with
              | Except.error e =>
                (Setup.exit { result := result, err := some (wrap e "db.open"),
                              trace := tr ++ [Event.query lastInstanceID (some e)] }, ds1)
              | Except.ok rows =>
                (Setup.ready { info := info, result := result,
                               lastInstanceID := lastInstanceID, rows := rows,
                               trace := tr ++ [Event.query lastInstanceID none] }, ds1)

/-- Lines 41-179: everything in front of the scan loop, with the stack of
deferred calls (the most recent first) at the point it is left. -/
def setup (env : Env) (source : Source) (sinks : List Sinker) : Setup × List Deferred :=
  let result : Result :=
    { Session := "agent_jobs", Instance := source.FQDN, Source := source, Rows := 0 }
  match env.connectionString with
  | Except.error e =>
    (Setup.exit { result := result, err := some (wrap e "mssqlodbc.connectionstring"),
                  trace := [] }, [])
  | Except.ok _ =>
    match env.sqlOpen with
    | some e => (Setup.exit { result := result, err := some (wrap e "db.open"), trace := [] }, [])
    | none =>
      match env.ping with
      | some e =>
        (Setup.exit { result := result, err := some (wrap e "db.ping"), trace := [] },
          [Deferred.safeClose])
      | none => guardAndOpen env sinks result

/-- Lines 181-406: the scan loop and the end of the run. -/
def body (env : Env) (source : Source) (sinks : List Sinker) (r : Ready) : Outcome :=
  match scanLoop env source sinks r.info
      { result := r.result, instanceID := 0, gotRows := false, startAtHit := false,
        trace := r.trace } r.rows with
  | (st, some e) => { result := st.result, err := some e, trace := st.trace }
  | (st, none) => finish env sinks st

/-- The deferred calls run at a `return`, the most recent first:
`sinks[i].Close()`, whose error is dropped, and `safeClose(db, &err)`, which
may replace the returned error. -/
def runDeferred (env : Env) : List Deferred → Outcome → Outcome
  | [], o => o
  | Deferred.sinkClose i :: ds, o =>
    runDeferred env ds { o with trace := o.trace ++ [Event.sinkClose i] }
  | Deferred.safeClose :: ds, o =>
    runDeferred env ds
      { o with err := env.safeClose o.trace o.err, trace := o.trace ++ [Event.dbClose] }

/-- The function `processAgentJobs`. -/
def processAgentJobs (env : Env) (_wid : Int) (source : Source) (sinks : List Sinker) :
    Outcome :=
  match setup env source sinks with
  | (Setup.exit o, ds) => runDeferred env ds o
  | (Setup.ready r, ds) => runDeferred env ds (body env source sinks r)

/-! ## Reference definitions in the words of the specification -/

/-- The classification table of the specification: status code to label and
severity, every unlisted code being `(undefined, Warning)`. -/
def classification (runStatus : Int) : String × Severity :=
  if runStatus = 0 then ("failed", Severity.Error)
  else if runStatus = 1 then ("succeeded", Severity.Info)
  else if runStatus = 2 then ("retry", Severity.Warning)
  else if runStatus = 3 then ("cancelled", Severity.Warning)
  else if runStatus = 4 then ("inprogress", Severity.Info)
  else ("undefined", Severity.Warning)

/-- The base record `{timestamp: T, message: M}` of the projection scenario. -/
def scenarioBase (T : Time) (M : String) : Record :=
  (NewRecord.Set "timestamp" (Value.time T)).Set "message" (Value.str M)

/-- A source with the given payload and timestamp field names. -/
def fieldSource (P F : String) : Source :=
  { FQDN := "srv", Rows := 0, StartAt := 0, StopAt := 100, AgentJobs := JobsMode.JobsAll,
    PayloadField := P, TimestampField := F, Adds := [], Copies := [], Moves := [] }

/-! ## Observations on the calls of a run -/

/-- Calls made in front of the scan loop. -/
def Event.isSetup : Event → Bool
  | Event.switchV2 _ => true
  | Event.checkDupe _ => true
  | Event.newFile _ => true
  | Event.getOffset _ => true
  | Event.sinkOpen _ _ _ => true
  | Event.query _ _ => true
  | _ => false

/-- Calls made by the scan loop: `Write` on a sink and `Save` on the status file. -/
def Event.isScan : Event → Bool
  | Event.write _ _ _ _ => true
  | Event.save _ _ => true
  | _ => false

/-- Calls made after the scan loop: `Flush`, `Clean` and the commit `Done`. -/
def Event.isEnd : Event → Bool
  | Event.flush _ _ => true
  | Event.clean _ _ => true
  | Event.done _ _ => true
  | _ => false

/-- Calls made by the deferred functions. -/
def Event.isClosing : Event → Bool
  | Event.sinkClose _ => true
  | Event.dbClose => true
  | _ => false

/-- The commit call. -/
def Event.isDone : Event → Bool
  | Event.done _ _ => true
  | _ => false

/-- A `Flush` or `Clean` that returned an error. -/
def Event.isFailedFlushClean : Event → Bool
  | Event.flush _ (some _) => true
  | Event.clean _ (some _) => true
  | _ => false

/-- The call a deferred function makes. -/
def Deferred.event : Deferred → Event
  | Deferred.safeClose => Event.dbClose
  | Deferred.sinkClose i => Event.sinkClose i

/-- What `setup` establishes, on either way out of it. -/
def SetupSpec (env : Env) (rows0 : Int) : Setup × List Deferred → Prop
  | (Setup.exit o, _) => (∀ e ∈ o.trace, e.isSetup = true) ∧ o.result.Rows = rows0 ∧ o.err ≠ none
  | (Setup.ready r, _) =>
    (∀ e ∈ r.trace, e.isSetup = true) ∧ r.result.Rows = rows0
      ∧ env.getOffset = Except.ok r.lastInstanceID
      ∧ env.query r.lastInstanceID = Except.ok r.rows

/-! ## Pieces of the scan, named for the statements below -/

/-- The row cap test of line 188. -/
def capReached (source : Source) (st : LoopState) : Prop :=
  source.Rows > 0 ∧ st.result.Rows ≥ source.Rows

instance (source : Source) (st : LoopState) : Decidable (capReached source st) := by
  unfold capReached
  exact inferInstance

/-- The row as the loop body holds it after `time.Parse` succeeded. -/
def parsed (j0 : jobResult) (t : Time) : jobResult := { j0 with TimestampUTC := t }

/-- The successful `Write` calls of one record on the sinks `i, i+1, ..., i+n-1`. -/
def writesOk (i n : Nat) (name rs : String) : List Event :=
  (List.range' i n).map (fun k => Event.write k name rs none)

/-- The calls a scan loop makes, with the error it returns from inside the
loop (`none` when the loop ends by exhaustion or `break`).  A row that is
accepted and not delivered leaves a successful `Save`; a delivered row leaves
a successful `Write` on every sink, then a successful `Save`; a failed `Write`
or `Save` is the last call of the loop; a failure of `rows.Scan`,
`time.Parse`, `ToJSON` or `ProcessMods` ends the loop without a call. -/
inductive ScanTrace (sinks : List Sinker) : List Event → Option Err → Prop
  | finished : ScanTrace sinks [] none
  | silent (e : Err) : ScanTrace sinks [] (some e)
  | writeFailed (k : Nat) (s : Sinker) (e0 : Err) (name rs : String) :
      sinks[k]? = some s →
      ScanTrace sinks (writesOk 0 k name rs ++ [Event.write k name rs (some e0)])
        (some (wrap e0 ("sink.write: " ++ s.Name)))
  | saveFailed (d : List Event) (c : Int) (e0 : Err) :
      (d = [] ∨ ∃ name rs, d = writesOk 0 sinks.length name rs) →
      ScanTrace sinks (d ++ [Event.save c (some e0)]) (some (wrap e0 "status.Save"))
  | saved (c : Int) (d : List Event) (err : Option Err) :
      ScanTrace sinks d err → ScanTrace sinks (Event.save c none :: d) err
  | delivered (name rs : String) (c : Int) (d : List Event) (err : Option Err) :
      ScanTrace sinks d err →
      ScanTrace sinks (writesOk 0 sinks.length name rs ++ Event.save c none :: d) err

/-- The loop state an iteration ends in. -/
def Step.state : Step → LoopState
  | Step.next st => st
  | Step.brk st => st
  | Step.ret st _ => st

/-- A `Write` call on a sink. -/
def Event.isWrite : Event → Bool
  | Event.write _ _ _ _ => true
  | _ => false

/-! ## Pieces of the end of a run, named for the statements below -/

/-- The `Flush` and `Clean` calls on the sinks `i, i+1, ...` in the order
lines 384-395 make them, `outs` giving the two outcomes for every sink. -/
def flushCleanEvents : Nat → List (Option Err × Option Err) → List Event
  | _, [] => []
  | i, (a, b) :: rest => Event.flush i a :: Event.clean i b :: flushCleanEvents (i + 1) rest

/-- The name of the sink at position `i` (`sinks[i].Name()`). -/
def nameOf (sinks : List Sinker) (i : Nat) : String :=
  match sinks[i]? with
  | some s => s.Name
  | none => ""

/-- The error the run builds for a failed `Flush` or `Clean` (lines 387, 392). -/
def failureOf (sinks : List Sinker) : Event → Option Err
  | Event.flush i (some e) => some (wrap e ("sink.flush: " ++ nameOf sinks i))
  | Event.clean i (some e) => some (wrap e ("sink.clean: " ++ nameOf sinks i))
  | _ => none

/-- The error of the last failing `Flush` or `Clean` among the calls, in call
order; `none` when none failed. -/
def lastFailure (sinks : List Sinker) : List Event → Option Err
  | [] => none
  | x :: xs =>
    match lastFailure sinks xs with
    | some e => some e
    | none => failureOf sinks x

/-- The calls lines 381-404 make after the scan loop, with the error the
function returns: nothing when no row was saved; else `Flush` and `Clean` on
every sink, followed by `Done` exactly when none of them failed. -/
def EndShape (sinks : List Sinker) (cursor : Int) (gotRows : Bool) (fin : List Event)
    (err : Option Err) : Prop :=
  (gotRows = false ∧ fin = [] ∧ err = none)
  ∨ (gotRows = true ∧ ∃ outs : List (Option Err × Option Err), outs.length = sinks.length ∧
      ((∃ e, lastFailure sinks (flushCleanEvents 0 outs) = some e
          ∧ fin = flushCleanEvents 0 outs ∧ err = some e)
      ∨ (lastFailure sinks (flushCleanEvents 0 outs) = none
          ∧ ∃ rd : Option Err, fin = flushCleanEvents 0 outs ++ [Event.done cursor rd]
            ∧ err = rd.map (fun e => wrap e "status.done"))))

/-! ## Cursors of rows and of calls, named for the statements below -/

/-- The cursor a `Save` call was made with. -/
def Event.savedCursor : Event → Option Int
  | Event.save c _ => some c
  | _ => none

/-- The cursors of the `Save` calls of a run, in call order. -/
def savedCursors (tr : List Event) : List Int := tr.filterMap Event.savedCursor

/-- The `instance_id` of a fetched row, when `rows.Scan` produced one. -/
def Fetched.cursor : Fetched → Option Int
  | Fetched.row j _ => some j.InstanceID
  | Fetched.scanErr _ => none

/-- The `instance_id` of a row that passes the time-window filter: its
timestamp parses and lies neither before `StartAt` nor after `StopAt`. -/
def accepted (source : Source) : Fetched → Option Int
  | Fetched.row j (Except.ok t) =>
    if source.StartAt ≤ t ∧ t ≤ source.StopAt then some j.InstanceID else none
  | _ => none

/-- A row whose UTC timestamp parses and lies after `StopAt`. -/
def isStop (source : Source) : Fetched → Bool
  | Fetched.row _ (Except.ok t) => decide (source.StopAt < t)
  | _ => false

/-- The row, as the loop holds it, when it is eligible: its timestamp parses,
lies inside the time window, and the row passes the delivery-mode filter. -/
def eligible (source : Source) : Fetched → Option jobResult
  | Fetched.row j (Except.ok t) =>
    if source.StartAt ≤ t ∧ t ≤ source.StopAt ∧ deliver source (parsed j t) = true then
      some (parsed j t)
    else none
  | _ => none

/-- The eligible rows in front of the first row with a timestamp after `StopAt`. -/
def eligibleBeforeStop (source : Source) (rows : List Fetched) : List jobResult :=
  (rows.takeWhile (fun f => !isStop source f)).filterMap (eligible source)

/-- The number of `Write` calls on the sink at position `i`. -/
def writeCount (i : Nat) (tr : List Event) : Nat :=
  tr.countP (fun x => match x with
    | Event.write k _ _ _ => k == i
    | _ => false)

/-- The error a call returned. -/
def Event.failure : Event → Option Err
  | Event.switchV2 e => e
  | Event.checkDupe e => e
  | Event.newFile e => e
  | Event.getOffset e => e
  | Event.sinkOpen _ _ e => e
  | Event.query _ e => e
  | Event.write _ _ _ e => e
  | Event.save _ e => e
  | Event.flush _ e => e
  | Event.clean _ e => e
  | Event.done _ e => e
  | Event.sinkClose _ => none
  | Event.dbClose => none

/-! ## Concrete collaborators and inputs -/

def okSink (name : String) : Sinker :=
  { Name := name, Open := fun _ _ => none, Write := fun _ _ _ => none,
    Flush := fun _ => none, Clean := fun _ => none }

def demoRow (id : Int) (status : Int) : jobResult :=
  { Name := "agent_job", InstanceID := id, JobID := "J", StepID := 0, StepName := "s",
    JobName := "job", Message := "msg", RunStatus := status, RunDuration := 1,
    TimestampLocal := 0, TimestampUTC := 0 }

def demoEnv (rows : List Fetched) : Env :=
  { connectionString := Except.ok "cxn", sqlOpen := none, ping := none,
    getInstance := Except.ok { Domain := "dom", Computer := "host", Server := "srv\\i1",
                               Version := "15", ProductVersion := "15.0" },
    switchV2 := none, checkDupe := none, newFile := none, getOffset := Except.ok 10,
    query := fun _ => Except.ok rows,
    save := fun _ _ => none, done := fun _ _ => none,
    toJSON := fun _ => Except.ok "json",
    processMods := fun rs _ _ _ => Except.ok rs,
    sevString := fun s => match s with
      | Severity.Error => "err"
      | Severity.Warning => "warning"
      | Severity.Info => "info",
    safeClose := fun _ e => e }

def demoSource (cap : Int) (mode : JobsMode) : Source :=
  { FQDN := "srv", Rows := cap, StartAt := 100, StopAt := 200, AgentJobs := mode,
    PayloadField := "", TimestampField := "timestamp", Adds := [], Copies := [], Moves := [] }

/-- A sink whose `Write` always fails. -/
def failSink (name : String) : Sinker :=
  { Name := name, Open := fun _ _ => none, Write := fun _ _ _ => some "down",
    Flush := fun _ => none, Clean := fun _ => none }

/-- A well-formed row with the given cursor, status and UTC instant. -/
def demoFetched (id status : Int) (t : Time) : Fetched :=
  Fetched.row (demoRow id status) (Except.ok t)

/-- A sink whose `Flush` always fails. -/
def flakySink (name : String) : Sinker :=
  { Name := name, Open := fun _ _ => none, Write := fun _ _ _ => none,
    Flush := fun _ => some "full", Clean := fun _ => none }

/-- The state in front of the scan loop in the demo runs over `rows` with two sinks. -/
def demoReady (rows : List Fetched) : Ready :=
  { info := { Domain := "dom", Computer := "host", Server := "srv\\i1", Version := "15",
              ProductVersion := "15.0" },
    result := { Session := "agent_jobs", Instance := "srv\\i1",
                Source := demoSource 0 JobsMode.JobsAll, Rows := 0 },
    lastInstanceID := 10,
    rows := rows,
    trace := [Event.switchV2 none, Event.checkDupe none, Event.newFile none,
      Event.getOffset none, Event.sinkOpen 0 "srv_i1" none, Event.sinkOpen 1 "srv_i1" none,
      Event.query 10 none] }

/-- The deferred calls of a demo run with two sinks, the most recent first. -/
def demoDeferred : List Deferred :=
  [Deferred.sinkClose 1, Deferred.sinkClose 0, Deferred.safeClose, Deferred.safeClose]

/-- A source whose window is empty: `StartAt` lies after `StopAt`. -/
def invertedSource : Source :=
  { FQDN := "srv", Rows := 0, StartAt := 100, StopAt := 50, AgentJobs := JobsMode.JobsAll,
    PayloadField := "", TimestampField := "timestamp", Adds := [], Copies := [], Moves := [] }

/-- Ten eligible rows with the cursors 11 to 20, all inside the demo window. -/
def tenRows : List Fetched :=
  [demoFetched 11 0 150, demoFetched 12 0 151, demoFetched 13 0 152, demoFetched 14 0 153,
   demoFetched 15 0 154, demoFetched 16 0 155, demoFetched 17 0 156, demoFetched 18 0 157,
   demoFetched 19 0 158, demoFetched 20 0 159]

/-- A row whose `timestamp_utc` text does not parse, then an eligible row. -/
def badThenGood : List Fetched :=
  [Fetched.row (demoRow 11 0) (Except.error "bad"), demoFetched 12 0 150]

/-! ## Severity classification (C10) -/

/-- C10: severity classification is total over the integer status codes. For
every status, the switch leaves in any record, and the record built for a row
holds, under `run_status_text`, `xe_severity_value` and `xe_severity_keyword`
the label and severity of the specification table and the string form of that
same severity; the table
sends 0, 1, 2, 3, 4 to failed/Error, succeeded/Info, retry/Warning,
cancelled/Warning, inprogress/Info and every other integer, negative ones and
99 included, to undefined/Warning. -/
theorem classification_total (env : Env) (info : InstanceInfo) (j : jobResult) :
    (∀ base : Record,
        setRunStatus env base j.RunStatus "run_status_text"
          = some (Value.str (classification j.RunStatus).1)
        ∧ setRunStatus env base j.RunStatus "xe_severity_value"
          = some (Value.sev (classification j.RunStatus).2)
        ∧ setRunStatus env base j.RunStatus "xe_severity_keyword"
          = some (Value.str (env.sevString (classification j.RunStatus).2)))
    ∧ (buildBase env info j "run_status_text"
        = some (Value.str (classification j.RunStatus).1)
      ∧ buildBase env info j "xe_severity_value"
        = some (Value.sev (classification j.RunStatus).2)
      ∧ buildBase env info j "xe_severity_keyword"
        = some (Value.str (env.sevString (classification j.RunStatus).2)))
    ∧ classification 0 = ("failed", Severity.Error)
    ∧ classification 1 = ("succeeded", Severity.Info)
    ∧ classification 2 = ("retry", Severity.Warning)
    ∧ classification 3 = ("cancelled", Severity.Warning)
    ∧ classification 4 = ("inprogress", Severity.Info)
    ∧ classification 99 = ("undefined", Severity.Warning)
    ∧ ∀ s : Int, (s < 0 ∨ 4 < s) → classification s = ("undefined", Severity.Warning) := by
  refine ⟨?_, ?_, by decide, by decide, by decide, by decide, by decide, by decide, ?_⟩
  · intro base
    simp only [setRunStatus, classification]
    split_ifs <;> simp [Record.Set]
  · simp only [buildBase, setRunStatus, classification]
    split_ifs <;> simp [Record.Set, Record.SetIfEmpty]
  · intro s hs
    simp only [classification]
    split_ifs <;> first | rfl | omega

/-! ## Lookup lemmas for records -/

theorem NewRecord_apply (x : String) : NewRecord x = none := rfl

theorem Record.Set_apply (r : Record) (k : String) (v : Value) (x : String) :
    r.Set k v x = if x = k then some v else r x := rfl

theorem Record.delete_apply (r : Record) (k x : String) :
    r.delete k x = if x = k then none else r x := rfl

theorem Record.copyFrom_new (src : Record) (x : String) :
    NewRecord.copyFrom src x = src x := by
  unfold Record.copyFrom
  cases src x <;> rfl

theorem Record.index_eq (r : Record) (k : String) : r.index k = (r k).getD Value.null := rfl

/-! ## Field projection (C9) -/

/-- C9, as the code has it: the entries of the projected record, key by key.
With a non-empty payload field `P` the record holds `B["timestamp"]` under the
timestamp field `F`, the whole of `B` under `P` when `P` differs from `F`, and
nothing under any other key; with an empty payload field and `F` other than
`timestamp` it holds `B["timestamp"]` under `F`, nothing under `timestamp`,
and what `B` holds under every other key; with an empty payload field and `F`
equal to `timestamp` it is `B`.  In the scenario `P = event`, `F = ts` on
`{timestamp: T, message: M}` the result is `{event: B, ts: T}`, which has no
`timestamp` key. -/
theorem project_entries (source : Source) (B : Record) (k : String) (T : Time) (M : String) :
    project source B k =
        (if source.PayloadField ≠ "" then
          (if k = source.TimestampField then some (B.index "timestamp")
           else if k = source.PayloadField then some (Value.record B)
           else none)
         else if source.TimestampField ≠ "timestamp" then
          (if k = source.TimestampField then some (B.index "timestamp")
           else if k = "timestamp" then none
           else B k)
         else B k)
    ∧ project (fieldSource "event" "ts") (scenarioBase T M) k
        = ((NewRecord.Set "event" (Value.record (scenarioBase T M))).Set
            "ts" (Value.time T)) k
    ∧ project (fieldSource "event" "ts") (scenarioBase T M) "timestamp" = none := by
  refine ⟨?_, ?_, ?_⟩
  · by_cases hP : source.PayloadField = ""
    · by_cases hF : source.TimestampField = "timestamp"
      · simp [project, hP, hF, Record.copyFrom_new]
      · have hF2 : ¬ ("timestamp" = source.TimestampField) := fun h => hF h.symm
        by_cases hk : k = "timestamp"
        · subst hk
          simp [project, hP, hF, hF2, Record.copyFrom_new, Record.Set_apply,
            Record.delete_apply]
        · by_cases hk2 : k = source.TimestampField
          · subst hk2
            simp [project, hP, hF, Record.copyFrom_new, Record.Set_apply,
              Record.delete_apply]
          · simp [project, hP, hF, hk, hk2, Record.copyFrom_new, Record.Set_apply,
              Record.delete_apply]
    · by_cases hk2 : k = source.TimestampField
      · subst hk2
        simp [project, hP, Record.Set_apply]
      · simp [project, hP, hk2, Record.Set_apply, NewRecord_apply]
  · simp [project, fieldSource, scenarioBase, Record.Set_apply, NewRecord_apply,
      Record.index_eq]
  · simp [project, fieldSource, scenarioBase, Record.Set_apply, NewRecord_apply,
      Record.index_eq]

/-- C9 fails as stated in three places.  With `P = F = ts` the record does not
hold `B` under `P`; with `P = timestamp`, `F = ts` there is a top-level
`timestamp` key although `F` is another name; with an empty `P` and
`F = message` the field `message` of `B` is not left unchanged. -/
theorem project_claim_counterexample :
    project (fieldSource "ts" "ts") (scenarioBase 7 "m") "ts"
        ≠ some (Value.record (scenarioBase 7 "m"))
    ∧ project (fieldSource "timestamp" "ts") (scenarioBase 7 "m") "timestamp" ≠ none
    ∧ project (fieldSource "" "message") (scenarioBase 7 "m") "message"
        ≠ scenarioBase 7 "m" "message" := by
  refine ⟨?_, ?_, ?_⟩ <;>
    simp [project, fieldSource, scenarioBase, Record.Set_apply, NewRecord_apply,
      Record.index_eq, Record.delete_apply, Record.copyFrom_new]

/-! ## The deferred calls and the setup -/

theorem runDeferred_trace (env : Env) (ds : List Deferred) (o : Outcome) :
    (runDeferred env ds o).trace = o.trace ++ ds.map Deferred.event := by
  induction ds generalizing o with
  | nil => simp [runDeferred]
  | cons d ds ih =>
    cases d <;> simp [runDeferred, ih, Deferred.event]

theorem runDeferred_result (env : Env) (ds : List Deferred) (o : Outcome) :
    (runDeferred env ds o).result = o.result := by
  induction ds generalizing o with
  | nil => simp [runDeferred]
  | cons d ds ih =>
    cases d <;> simp [runDeferred, ih]

theorem runDeferred_err (env : Env) (hsc : ∀ tr e, env.safeClose tr e = e)
    (ds : List Deferred) (o : Outcome) :
    (runDeferred env ds o).err = o.err := by
  induction ds generalizing o with
  | nil => simp [runDeferred]
  | cons d ds ih =>
    cases d <;> simp [runDeferred, ih, hsc]

theorem deferred_isClosing (ds : List Deferred) :
    ∀ e ∈ ds.map Deferred.event, e.isClosing = true := by
  intro e he
  simp only [List.mem_map] at he
  obtain ⟨d, _, rfl⟩ := he
  cases d <;> rfl

theorem openSinks_trace (sinks : List Sinker) (i : Nat) (id : String) (tr : List Event)
    (ds : List Deferred) :
    ∃ d, (openSinks sinks i id tr ds).1 = tr ++ d ∧ ∀ e ∈ d, e.isSetup = true := by
  induction sinks generalizing i tr ds with
  | nil => exact ⟨[], by simp [openSinks]⟩
  | cons s rest ih =>
    unfold openSinks
    split
    · exact ⟨[Event.sinkOpen i id _], rfl, by simp [Event.isSetup]⟩
    · obtain ⟨d, hd, hall⟩ := ih (i + 1) (tr ++ [Event.sinkOpen i id none])
        (Deferred.sinkClose i :: ds)
      refine ⟨Event.sinkOpen i id none :: d, ?_, ?_⟩
      · rw [hd]; simp
      · intro e he
        rcases List.mem_cons.1 he with rfl | h
        · rfl
        · exact hall e h

theorem guardAndOpen_spec (env : Env) (sinks : List Sinker) (result : Result) :
    SetupSpec env result.Rows (guardAndOpen env sinks result) := by
  unfold guardAndOpen
  cases h1 : env.getInstance with
  | error e => simp [SetupSpec]
  | ok info =>
    cases h2 : env.switchV2 with
    | some e => simp [SetupSpec, Event.isSetup]
    | none =>
      cases h3 : env.checkDupe with
      | some e => simp [SetupSpec, Event.isSetup]
      | none =>
        cases h4 : env.newFile with
        | some e => simp [SetupSpec, Event.isSetup]
        | none =>
          cases h5 : env.getOffset with
          | error e => simp [SetupSpec, Event.isSetup]
          | ok last =>
            obtain ⟨d, hd, hall⟩ := openSinks_trace sinks 0 (replaceBackslash info.Server)
              [Event.switchV2 none, Event.checkDupe none, Event.newFile none,
                Event.getOffset none] [Deferred.safeClose, Deferred.safeClose]
            rcases hop : openSinks sinks 0 (replaceBackslash info.Server)
              [Event.switchV2 none, Event.checkDupe none, Event.newFile none,
                Event.getOffset none] [Deferred.safeClose, Deferred.safeClose]
              with ⟨tr, ds1, err⟩
            rw [hop] at hd
            simp only at hd
            subst hd
            have hpre : ∀ e ∈ [Event.switchV2 none, Event.checkDupe none, Event.newFile none,
                Event.getOffset none] ++ d, e.isSetup = true := by
              intro e he
              rcases List.mem_append.1 he with h | h
              · simp at h
                rcases h with rfl | rfl | rfl | rfl <;> rfl
              · exact hall e h
            cases err with
            | some e =>
              simp only [hop, SetupSpec]
              exact ⟨hpre, trivial, by simp⟩
            | none =>
              cases h6 : env.query last with
              | error e =>
                simp only [hop, h6, SetupSpec]
                refine ⟨?_, trivial, by simp⟩
                intro e he
                rcases List.mem_append.1 he with h | h
                · exact hpre e h
                · simp at h; subst h; rfl
              | ok rows =>
                simp only [hop, h6, SetupSpec]
                refine ⟨?_, trivial, h5, trivial⟩
                intro e he
                rcases List.mem_append.1 he with h | h
                · exact hpre e h
                · simp at h; subst h; rfl

theorem setup_spec (env : Env) (source : Source) (sinks : List Sinker) :
    SetupSpec env 0 (setup env source sinks) := by
  unfold setup
  cases h1 : env.connectionString with
  | error e => simp [SetupSpec]
  | ok cs =>
    cases h2 : env.sqlOpen with
    | some e => simp [SetupSpec]
    | none =>
      cases h3 : env.ping with
      | some e => simp [SetupSpec]
      | none => exact guardAndOpen_spec env sinks _

/-! ## One iteration of the scan loop -/

theorem writeSinks_ok (sinks : List Sinker) (i : Nat) (name rs : String) (tr tr' : List Event)
    (h : writeSinks sinks i name rs tr = (tr', none)) :
    tr' = tr ++ writesOk i sinks.length name rs := by
  induction sinks generalizing i tr with
  | nil =>
    simp [writeSinks] at h
    simp [writesOk, h]
  | cons s rest ih =>
    unfold writeSinks at h
    cases hw : s.Write tr name rs with
    | some e => simp [hw] at h
    | none =>
      simp only [hw] at h
      rw [ih _ _ h]
      simp [writesOk, List.range'_succ]

theorem writeSinks_err (sinks : List Sinker) (i : Nat) (name rs : String) (tr tr' : List Event)
    (e : Err) (h : writeSinks sinks i name rs tr = (tr', some e)) :
    ∃ k s e0, sinks[k]? = some s ∧ e = wrap e0 ("sink.write: " ++ s.Name)
      ∧ tr' = tr ++ writesOk i k name rs ++ [Event.write (i + k) name rs (some e0)] := by
  induction sinks generalizing i tr with
  | nil => simp [writeSinks] at h
  | cons s rest ih =>
    unfold writeSinks at h
    cases hw : s.Write tr name rs with
    | some e0 =>
      simp only [hw, Prod.mk.injEq, Option.some.injEq] at h
      exact ⟨0, s, e0, by simp, h.2.symm, by simp [writesOk, h.1]⟩
    | none =>
      simp only [hw] at h
      obtain ⟨k, s1, e0, hk, he, htr⟩ := ih _ _ h
      refine ⟨k + 1, s1, e0, by simpa using hk, he, ?_⟩
      rw [htr]
      simp [writesOk, List.range'_succ, Nat.add_assoc, Nat.add_comm 1 k]

theorem loopBody_next (env : Env) (source : Source) (sinks : List Sinker) (info : InstanceInfo)
    (st st' : LoopState) (f : Fetched)
    (h : loopBody env source sinks info st f = Step.next st') :
    ¬ capReached source st ∧ ∃ j0 t, f = Fetched.row j0 (Except.ok t) ∧
      ((t < source.StartAt ∧ st' = { st with startAtHit := true })
      ∨ (source.StartAt ≤ t ∧ t ≤ source.StopAt ∧ deliver source (parsed j0 t) = false
          ∧ st' = { st with instanceID := j0.InstanceID, gotRows := true,
                            trace := st.trace ++ [Event.save j0.InstanceID none] })
      ∨ (source.StartAt ≤ t ∧ t ≤ source.StopAt ∧ deliver source (parsed j0 t) = true
          ∧ ∃ rs0 rs,
              env.toJSON (project source (buildBase env info (parsed j0 t))) = Except.ok rs0
              ∧ env.processMods rs0 source.Adds source.Copies source.Moves = Except.ok rs
              ∧ st' = { st with instanceID := j0.InstanceID, gotRows := true,
                                result := { st.result with Rows := st.result.Rows + 1 },
                                trace := st.trace ++ writesOk 0 sinks.length j0.Name rs
                                  ++ [Event.save j0.InstanceID none] })) := by
  unfold loopBody at h
  by_cases hcap : source.Rows > 0 ∧ st.result.Rows ≥ source.Rows
  · simp [hcap] at h
  · refine ⟨hcap, ?_⟩
    simp only [hcap, if_false] at h
    cases f with
    | scanErr e => simp at h
    | row j0 ts =>
      cases ts with
      | error e => simp at h
      | ok t =>
        refine ⟨j0, t, rfl, ?_⟩
        simp only at h
        by_cases h1 : t < source.StartAt
        · left
          simp only [h1, if_true, Step.next.injEq] at h
          exact ⟨h1, h.symm⟩
        · simp only [h1, if_false] at h
          by_cases h2 : t > source.StopAt
          · simp [h2] at h
          · simp only [h2, if_false] at h
            right
            cases hd : deliver source (parsed j0 t) with
            | false =>
              left
              have hd' : deliver source { j0 with TimestampUTC := t } = false := hd
              simp only [hd', Bool.false_eq_true, if_false, saveRow] at h
              cases hs : env.save st.trace j0.InstanceID with
              | some e => simp [hs] at h
              | none =>
                simp only [hs, Step.next.injEq] at h
                exact ⟨not_lt.mp h1, not_lt.mp h2, rfl, h.symm⟩
            | true =>
              right
              have hd' : deliver source { j0 with TimestampUTC := t } = true := hd
              simp only [hd', if_true] at h
              cases hj : env.toJSON (project source (buildBase env info (parsed j0 t))) with
              | error e =>
                have hj' : env.toJSON (project source (buildBase env info
                  { j0 with TimestampUTC := t })) = Except.error e := hj
                simp [hj'] at h
              | ok rs0 =>
                have hj' : env.toJSON (project source (buildBase env info
                  { j0 with TimestampUTC := t })) = Except.ok rs0 := hj
                simp only [hj'] at h
                cases hm : env.processMods rs0 source.Adds source.Copies source.Moves with
                | error e => simp [hm] at h
                | ok rs =>
                  simp only [hm] at h
                  rcases hw : writeSinks sinks 0 j0.Name rs st.trace with ⟨tr, we⟩
                  rw [hw] at h
                  cases we with
                  | some e => simp at h
                  | none =>
                    simp only [saveRow] at h
                    have htr := writeSinks_ok _ _ _ _ _ _ hw
                    subst htr
                    cases hs : env.save (st.trace ++ writesOk 0 sinks.length j0.Name rs)
                      j0.InstanceID with
                    | some e => simp [hs] at h
                    | none =>
                      simp only [hs, Step.next.injEq] at h
                      exact ⟨not_lt.mp h1, not_lt.mp h2, rfl, rs0, rs, rfl, hm, h.symm⟩
theorem loopBody_brk (env : Env) (source : Source) (sinks : List Sinker) (info : InstanceInfo)
    (st st' : LoopState) (f : Fetched)
    (h : loopBody env source sinks info st f = Step.brk st') :
    st' = st ∧ (capReached source st
      ∨ ∃ j0 t, f = Fetched.row j0 (Except.ok t) ∧ source.StartAt ≤ t ∧ source.StopAt < t) := by
  unfold loopBody at h
  by_cases hcap : source.Rows > 0 ∧ st.result.Rows ≥ source.Rows
  · simp only [hcap, and_self, if_true, Step.brk.injEq] at h
    exact ⟨h.symm, Or.inl hcap⟩
  · simp only [hcap, if_false] at h
    cases f with
    | scanErr e => simp at h
    | row j0 ts =>
      cases ts with
      | error e => simp at h
      | ok t =>
        simp only at h
        by_cases h1 : t < source.StartAt
        · simp [h1] at h
        · simp only [h1, if_false] at h
          by_cases h2 : t > source.StopAt
          · simp only [h2, if_true, Step.brk.injEq] at h
            exact ⟨h.symm, Or.inr ⟨j0, t, rfl, not_lt.mp h1, h2⟩⟩
          · simp only [h2, if_false] at h
            cases hd : deliver source { j0 with TimestampUTC := t } with
            | false =>
              simp only [hd, Bool.false_eq_true, if_false, saveRow] at h
              cases hs : env.save st.trace j0.InstanceID <;> simp [hs] at h
            | true =>
              simp only [hd, if_true] at h
              cases hj : env.toJSON (project source (buildBase env info
                  { j0 with TimestampUTC := t })) with
              | error e => simp [hj] at h
              | ok rs0 =>
                simp only [hj] at h
                cases hm : env.processMods rs0 source.Adds source.Copies source.Moves with
                | error e => simp [hm] at h
                | ok rs =>
                  simp only [hm] at h
                  rcases hw : writeSinks sinks 0 j0.Name rs st.trace with ⟨tr, we⟩
                  rw [hw] at h
                  cases we with
                  | some e => simp at h
                  | none =>
                    simp only [saveRow] at h
                    cases hs : env.save tr j0.InstanceID <;> simp [hs] at h

theorem loopBody_ret (env : Env) (source : Source) (sinks : List Sinker) (info : InstanceInfo)
    (st st' : LoopState) (f : Fetched) (e : Err)
    (h : loopBody env source sinks info st f = Step.ret st' e) :
    ∃ d, st'.trace = st.trace ++ d ∧ ScanTrace sinks d (some e) := by
  unfold loopBody at h
  by_cases hcap : source.Rows > 0 ∧ st.result.Rows ≥ source.Rows
  · simp [hcap] at h
  · simp only [hcap, if_false] at h
    cases f with
    | scanErr e1 =>
      simp only [Step.ret.injEq] at h
      exact ⟨[], by simp [h.1], h.2 ▸ ScanTrace.silent _⟩
    | row j0 ts =>
      cases ts with
      | error e1 =>
        simp only [Step.ret.injEq] at h
        exact ⟨[], by simp [h.1], h.2 ▸ ScanTrace.silent _⟩
      | ok t =>
        simp only at h
        by_cases h1 : t < source.StartAt
        · simp [h1] at h
        · simp only [h1, if_false] at h
          by_cases h2 : t > source.StopAt
          · simp [h2] at h
          · simp only [h2, if_false] at h
            cases hd : deliver source { j0 with TimestampUTC := t } with
            | false =>
              simp only [hd, Bool.false_eq_true, if_false, saveRow] at h
              cases hs : env.save st.trace j0.InstanceID with
              | none => simp [hs] at h
              | some e0 =>
                simp only [hs, Step.ret.injEq] at h
                refine ⟨[Event.save j0.InstanceID (some e0)], by simp [← h.1], ?_⟩
                rw [← h.2]
                exact ScanTrace.saveFailed [] _ _ (Or.inl rfl)
            | true =>
              simp only [hd, if_true] at h
              cases hj : env.toJSON (project source (buildBase env info
                  { j0 with TimestampUTC := t })) with
              | error e1 =>
                simp only [hj, Step.ret.injEq] at h
                exact ⟨[], by simp [← h.1], h.2 ▸ ScanTrace.silent _⟩
              | ok rs0 =>
                simp only [hj] at h
                cases hm : env.processMods rs0 source.Adds source.Copies source.Moves with
                | error e1 =>
                  simp only [hm, Step.ret.injEq] at h
                  exact ⟨[], by simp [← h.1], h.2 ▸ ScanTrace.silent _⟩
                | ok rs =>
                  simp only [hm] at h
                  rcases hw : writeSinks sinks 0 j0.Name rs st.trace with ⟨tr, we⟩
                  rw [hw] at h
                  cases we with
                  | some e1 =>
                    simp only [Step.ret.injEq] at h
                    obtain ⟨k, s, e0, hk, he, htr⟩ := writeSinks_err _ _ _ _ _ _ _ hw
                    refine ⟨writesOk 0 k j0.Name rs ++ [Event.write k j0.Name rs (some e0)],
                      ?_, ?_⟩
                    · rw [← h.1]; simp [htr]
                    · rw [← h.2, he]
                      exact ScanTrace.writeFailed k s e0 _ _ hk
                  | none =>
                    simp only [saveRow] at h
                    have htr := writeSinks_ok _ _ _ _ _ _ hw
                    subst htr
                    cases hs : env.save (st.trace ++ writesOk 0 sinks.length j0.Name rs)
                      j0.InstanceID with
                    | none => simp [hs] at h
                    | some e0 =>
                      simp only [hs, Step.ret.injEq] at h
                      refine ⟨writesOk 0 sinks.length j0.Name rs
                        ++ [Event.save j0.InstanceID (some e0)], by simp [← h.1], ?_⟩
                      rw [← h.2]
                      exact ScanTrace.saveFailed _ _ _ (Or.inr ⟨_, _, rfl⟩)

/-! ## The scan loop -/

theorem scanLoop_trace (env : Env) (source : Source) (sinks : List Sinker) (info : InstanceInfo)
    (rows : List Fetched) (st : LoopState) :
    ∃ d, (scanLoop env source sinks info st rows).1.trace = st.trace ++ d
      ∧ ScanTrace sinks d (scanLoop env source sinks info st rows).2 := by
  induction rows generalizing st with
  | nil => exact ⟨[], by simp [scanLoop], by simpa [scanLoop] using ScanTrace.finished⟩
  | cons f rest ih =>
    unfold scanLoop
    cases hb : loopBody env source sinks info st f with
    | brk st1 =>
      obtain ⟨h1, _⟩ := loopBody_brk _ _ _ _ _ _ _ hb
      exact ⟨[], by simp [h1], ScanTrace.finished⟩
    | ret st1 e =>
      obtain ⟨d, hd, hs⟩ := loopBody_ret _ _ _ _ _ _ _ _ hb
      exact ⟨d, hd, hs⟩
    | next st1 =>
      obtain ⟨d, hd, hs⟩ := ih st1
      obtain ⟨_, j0, t, _, hcase⟩ := loopBody_next _ _ _ _ _ _ _ hb
      simp only
      rcases hcase with ⟨_, h1⟩ | ⟨_, _, _, h1⟩ | ⟨_, _, _, rs0, rs, _, _, h1⟩
      · refine ⟨d, ?_, hs⟩
        rw [hd, h1]
      · refine ⟨Event.save j0.InstanceID none :: d, ?_, ScanTrace.saved _ _ _ hs⟩
        rw [hd, h1]; simp
      · refine ⟨writesOk 0 sinks.length j0.Name rs ++ Event.save j0.InstanceID none :: d, ?_,
          ScanTrace.delivered _ _ _ _ _ hs⟩
        rw [hd, h1]; simp

/-! ## The end of a run: flush, clean, commit -/

theorem lastFailure_cons2 (sinks : List Sinker) (i : Nat) (a b : Option Err) (evs : List Event) :
    lastFailure sinks (Event.flush i a :: Event.clean i b :: evs) =
      match lastFailure sinks evs with
      | some e => some e
      | none =>
        match b with
        | some e => some (wrap e ("sink.clean: " ++ nameOf sinks i))
        | none =>
          match a with
          | some e => some (wrap e ("sink.flush: " ++ nameOf sinks i))
          | none => none := by
  simp only [lastFailure]
  cases lastFailure sinks evs <;> cases b <;> cases a <;> simp [failureOf]

theorem flushClean_spec (all : List Sinker) (rest : List Sinker) (i : Nat)
    (hdrop : all.drop i = rest) (tr : List Event) (le : Option Err) :
    ∃ outs : List (Option Err × Option Err), outs.length = rest.length
      ∧ (flushClean rest i tr le).1 = tr ++ flushCleanEvents i outs
      ∧ (flushClean rest i tr le).2 =
          (match lastFailure all (flushCleanEvents i outs) with
           | some e => some e
           | none => le) := by
  induction rest generalizing i tr le with
  | nil => exact ⟨[], rfl, by simp [flushClean, flushCleanEvents], by simp [flushClean, flushCleanEvents, lastFailure]⟩
  | cons s rest ih =>
    have hs : all[i]? = some s := by
      have := congrArg (fun l => l[0]?) hdrop
      simpa using this
    have hname : nameOf all i = s.Name := by simp [nameOf, hs]
    have hdrop' : all.drop (i + 1) = rest := by
      have := congrArg List.tail hdrop
      simpa using this
    unfold flushClean
    simp only
    obtain ⟨outs, hlen, htr, herr⟩ := ih (i + 1) hdrop'
      (tr ++ [Event.flush i (s.Flush tr)]
        ++ [Event.clean i (s.Clean (tr ++ [Event.flush i (s.Flush tr)]))])
      (match s.Clean (tr ++ [Event.flush i (s.Flush tr)]) with
        | some e => some (wrap e ("sink.clean: " ++ s.Name))
        | none =>
          match s.Flush tr with
          | some e => some (wrap e ("sink.flush: " ++ s.Name))
          | none => le)
    refine ⟨(s.Flush tr, s.Clean (tr ++ [Event.flush i (s.Flush tr)])) :: outs, by simp [hlen],
      ?_, ?_⟩
    · rw [htr]; simp [flushCleanEvents]
    · rw [herr]
      simp only [flushCleanEvents, lastFailure_cons2, hname]
      cases lastFailure all (flushCleanEvents (i + 1) outs) <;>
        cases s.Clean (tr ++ [Event.flush i (s.Flush tr)]) <;> cases s.Flush tr <;> simp

theorem finish_spec (env : Env) (sinks : List Sinker) (st : LoopState) :
    ∃ fin, (finish env sinks st).trace = st.trace ++ fin
      ∧ (finish env sinks st).result = st.result
      ∧ EndShape sinks st.instanceID st.gotRows fin (finish env sinks st).err := by
  unfold finish
  cases hg : st.gotRows with
  | false => exact ⟨[], by simp, by simp, Or.inl ⟨rfl, rfl, by simp⟩⟩
  | true =>
    obtain ⟨outs, hlen, htr, herr⟩ := flushClean_spec sinks sinks 0 rfl st.trace none
    rcases hfc : flushClean sinks 0 st.trace none with ⟨tr, le⟩
    rw [hfc] at htr herr
    simp only at htr herr
    subst htr
    simp only [if_true]
    cases le with
    | some e =>
      refine ⟨flushCleanEvents 0 outs, rfl, rfl, Or.inr ⟨rfl, outs, hlen, Or.inl ⟨e, ?_, rfl, rfl⟩⟩⟩
      cases hl : lastFailure sinks (flushCleanEvents 0 outs) with
      | none => simp [hl] at herr
      | some e1 => simp [hl] at herr; simp [herr]
    | none =>
      have hl : lastFailure sinks (flushCleanEvents 0 outs) = none := by
        cases hl : lastFailure sinks (flushCleanEvents 0 outs) with
        | none => rfl
        | some e1 => simp [hl] at herr
      cases hd : env.done (st.trace ++ flushCleanEvents 0 outs) st.instanceID with
      | some e =>
        simp only [hd]
        exact ⟨flushCleanEvents 0 outs ++ [Event.done st.instanceID (some e)], by simp, trivial,
          Or.inr ⟨rfl, outs, hlen, Or.inr ⟨hl, some e, rfl, rfl⟩⟩⟩
      | none =>
        simp only [hd]
        exact ⟨flushCleanEvents 0 outs ++ [Event.done st.instanceID none], by simp, trivial,
          Or.inr ⟨rfl, outs, hlen, Or.inr ⟨hl, none, rfl, rfl⟩⟩⟩

/-! ## The shape of the calls of a whole run -/

theorem writesOk_mem (i n : Nat) (name rs : String) (x : Event) (h : x ∈ writesOk i n name rs) :
    ∃ k, i ≤ k ∧ k < i + n ∧ x = Event.write k name rs none := by
  simp only [writesOk, List.mem_map, List.mem_range'_1] at h
  obtain ⟨k, ⟨h1, h2⟩, rfl⟩ := h
  exact ⟨k, h1, h2, rfl⟩

theorem ScanTrace.isScan {sinks : List Sinker} {d : List Event} {e : Option Err}
    (h : ScanTrace sinks d e) : ∀ x ∈ d, x.isScan = true := by
  induction h with
  | finished => simp
  | silent e => simp
  | writeFailed k s e0 name rs hk =>
    intro x hx
    rcases List.mem_append.1 hx with h1 | h1
    · obtain ⟨_, _, _, rfl⟩ := writesOk_mem _ _ _ _ _ h1
      rfl
    · simp at h1; subst h1; rfl
  | saveFailed d c e0 hd =>
    intro x hx
    rcases List.mem_append.1 hx with h1 | h1
    · rcases hd with rfl | ⟨name, rs, rfl⟩
      · simp at h1
      · obtain ⟨_, _, _, rfl⟩ := writesOk_mem _ _ _ _ _ h1
        rfl
    · simp at h1; subst h1; rfl
  | saved c d err _ ih =>
    intro x hx
    rcases List.mem_cons.1 hx with rfl | h1
    · rfl
    · exact ih x h1
  | delivered name rs c d err _ ih =>
    intro x hx
    rcases List.mem_append.1 hx with h1 | h1
    · obtain ⟨_, _, _, rfl⟩ := writesOk_mem _ _ _ _ _ h1
      rfl
    · rcases List.mem_cons.1 h1 with rfl | h2
      · rfl
      · exact ih x h2

theorem flushCleanEvents_mem (i : Nat) (outs : List (Option Err × Option Err)) (x : Event)
    (h : x ∈ flushCleanEvents i outs) :
    (∃ k a, x = Event.flush k a) ∨ (∃ k b, x = Event.clean k b) := by
  induction outs generalizing i with
  | nil => simp [flushCleanEvents] at h
  | cons p outs ih =>
    obtain ⟨a, b⟩ := p
    simp only [flushCleanEvents, List.mem_cons] at h
    rcases h with rfl | rfl | h
    · exact Or.inl ⟨_, _, rfl⟩
    · exact Or.inr ⟨_, _, rfl⟩
    · exact ih _ h

theorem lastFailure_none (sinks : List Sinker) (evs : List Event)
    (h : lastFailure sinks evs = none) : ∀ x ∈ evs, x.isFailedFlushClean = false := by
  induction evs with
  | nil => simp
  | cons y ys ih =>
    simp only [lastFailure] at h
    cases hl : lastFailure sinks ys with
    | some e => simp [hl] at h
    | none =>
      simp only [hl] at h
      intro x hx
      rcases List.mem_cons.1 hx with rfl | h1
      · cases x with
        | flush i a => cases a <;> simp_all [failureOf, Event.isFailedFlushClean]
        | clean i a => cases a <;> simp_all [failureOf, Event.isFailedFlushClean]
        | _ => rfl
      · exact ih hl x h1

theorem lastFailure_some (sinks : List Sinker) (evs : List Event) (e : Err)
    (h : lastFailure sinks evs = some e) : ∃ x ∈ evs, x.isFailedFlushClean = true := by
  induction evs with
  | nil => simp [lastFailure] at h
  | cons y ys ih =>
    simp only [lastFailure] at h
    cases hl : lastFailure sinks ys with
    | some e1 =>
      simp only [hl, Option.some.injEq] at h
      subst h
      obtain ⟨x, hx, hf⟩ := ih hl
      exact ⟨x, List.mem_cons_of_mem _ hx, hf⟩
    | none =>
      simp only [hl] at h
      refine ⟨y, List.mem_cons_self _ _, ?_⟩
      cases y with
      | flush i a => cases a <;> simp_all [failureOf, Event.isFailedFlushClean]
      | clean i a => cases a <;> simp_all [failureOf, Event.isFailedFlushClean]
      | _ => simp [failureOf] at h

theorem flushCleanEvents_all_ok (sinks : List Sinker) (i : Nat)
    (outs : List (Option Err × Option Err))
    (h : lastFailure sinks (flushCleanEvents i outs) = none) (k : Nat) (hk : k < outs.length) :
    Event.flush (i + k) none ∈ flushCleanEvents i outs
      ∧ Event.clean (i + k) none ∈ flushCleanEvents i outs := by
  induction outs generalizing i k with
  | nil => simp at hk
  | cons p outs ih =>
    obtain ⟨a, b⟩ := p
    have hno := lastFailure_none sinks _ h
    have ha : a = none := by
      cases a with
      | none => rfl
      | some e =>
        have := hno (Event.flush i (some e)) (by simp [flushCleanEvents])
        simp [Event.isFailedFlushClean] at this
    have hb : b = none := by
      cases b with
      | none => rfl
      | some e =>
        have := hno (Event.clean i (some e)) (by simp [flushCleanEvents])
        simp [Event.isFailedFlushClean] at this
    subst ha hb
    cases k with
    | zero => simp [flushCleanEvents]
    | succ k =>
      have htail : lastFailure sinks (flushCleanEvents (i + 1) outs) = none := by
        simp only [flushCleanEvents, lastFailure] at h
        cases hl : lastFailure sinks (flushCleanEvents (i + 1) outs) with
        | none => rfl
        | some e => simp [hl] at h
      have := ih (i + 1) htail k (by simpa using hk)
      have hidx : i + (k + 1) = i + 1 + k := by omega
      rw [hidx]
      simp only [flushCleanEvents, List.mem_cons]
      exact ⟨Or.inr (Or.inr this.1), Or.inr (Or.inr this.2)⟩

theorem body_spec (env : Env) (source : Source) (sinks : List Sinker) (r : Ready) :
    ∃ st e d fin,
      scanLoop env source sinks r.info
        { result := r.result, instanceID := 0, gotRows := false, startAtHit := false,
          trace := r.trace } r.rows = (st, e)
      ∧ st.trace = r.trace ++ d ∧ ScanTrace sinks d e
      ∧ (body env source sinks r).trace = r.trace ++ d ++ fin
      ∧ (body env source sinks r).result = st.result
      ∧ ((∃ err, e = some err ∧ fin = [] ∧ (body env source sinks r).err = some err)
        ∨ (e = none ∧ EndShape sinks st.instanceID st.gotRows fin
            (body env source sinks r).err)) := by
  obtain ⟨d, hd, hs⟩ := scanLoop_trace env source sinks r.info r.rows
    { result := r.result, instanceID := 0, gotRows := false, startAtHit := false,
      trace := r.trace }
  rcases hscan : scanLoop env source sinks r.info
    { result := r.result, instanceID := 0, gotRows := false, startAtHit := false,
      trace := r.trace } r.rows with ⟨st, e⟩
  rw [hscan] at hd hs
  simp only at hd hs
  unfold body
  rw [hscan]
  cases e with
  | some err =>
    exact ⟨st, some err, d, [], rfl, hd, hs, by simp [hd], rfl, Or.inl ⟨err, rfl, rfl, rfl⟩⟩
  | none =>
    obtain ⟨fin, hf, hr, hend⟩ := finish_spec env sinks st
    exact ⟨st, none, d, fin, rfl, hd, hs, by simp [hf, hd], hr, Or.inr ⟨rfl, hend⟩⟩

theorem run_exit (env : Env) (wid : Int) (source : Source) (sinks : List Sinker)
    (o : Outcome) (ds : List Deferred) (hset : setup env source sinks = (Setup.exit o, ds)) :
    processAgentJobs env wid source sinks = runDeferred env ds o := by
  simp [processAgentJobs, hset]

theorem run_ready (env : Env) (wid : Int) (source : Source) (sinks : List Sinker)
    (r : Ready) (ds : List Deferred) (hset : setup env source sinks = (Setup.ready r, ds)) :
    processAgentJobs env wid source sinks = runDeferred env ds (body env source sinks r) := by
  simp [processAgentJobs, hset]

theorem run_trace (env : Env) (wid : Int) (source : Source) (sinks : List Sinker) :
    ∃ pre d fin post e berr,
      (processAgentJobs env wid source sinks).trace = pre ++ d ++ fin ++ post
      ∧ (∀ x ∈ pre, x.isSetup = true) ∧ ScanTrace sinks d e
      ∧ (∀ x ∈ post, x.isClosing = true)
      ∧ ((∀ tr err, env.safeClose tr err = err) →
          (processAgentJobs env wid source sinks).err = berr)
      ∧ ((∃ err, e = some err ∧ fin = [] ∧ berr = some err)
        ∨ (e = none ∧ ∃ cursor got, EndShape sinks cursor got fin berr)) := by
  have hspec := setup_spec env source sinks
  rcases hset : setup env source sinks with ⟨s, ds⟩
  rw [hset] at hspec
  cases s with
  | exit o =>
    obtain ⟨h1, _, h3⟩ := hspec
    rw [run_exit env wid source sinks o ds hset]
    cases he : o.err with
    | none => exact absurd he h3
    | some err =>
      refine ⟨o.trace, [], [], ds.map Deferred.event, some err, some err, ?_, h1,
        ScanTrace.silent err, deferred_isClosing ds, ?_, Or.inl ⟨err, rfl, rfl, rfl⟩⟩
      · simp [runDeferred_trace]
      · intro hsc
        rw [runDeferred_err env hsc, he]
  | ready r =>
    obtain ⟨h1, _, _, _⟩ := hspec
    rw [run_ready env wid source sinks r ds hset]
    obtain ⟨st, e, d, fin, _, _, hs, htr, _, hcase⟩ := body_spec env source sinks r
    refine ⟨r.trace, d, fin, ds.map Deferred.event, e, (body env source sinks r).err, ?_, h1,
      hs, deferred_isClosing ds, ?_, ?_⟩
    · simp [runDeferred_trace, htr]
    · intro hsc
      rw [runDeferred_err env hsc]
    · rcases hcase with ⟨err, h2, h3, h4⟩ | ⟨h2, h3⟩
      · exact Or.inl ⟨err, h2, h3, h4⟩
      · exact Or.inr ⟨h2, _, _, h3⟩

theorem Event.setup_not_end (x : Event) (h : x.isSetup = true) :
    x.isDone = false ∧ x.isFailedFlushClean = false ∧ x.isEnd = false ∧ x.isScan = false := by
  cases x <;> simp_all [Event.isSetup, Event.isDone, Event.isFailedFlushClean, Event.isEnd,
    Event.isScan]

theorem Event.scan_not_end (x : Event) (h : x.isScan = true) :
    x.isDone = false ∧ x.isFailedFlushClean = false ∧ x.isEnd = false := by
  cases x <;> simp_all [Event.isScan, Event.isDone, Event.isFailedFlushClean, Event.isEnd]

theorem Event.closing_not_end (x : Event) (h : x.isClosing = true) :
    x.isDone = false ∧ x.isFailedFlushClean = false ∧ x.isEnd = false ∧ x.isScan = false := by
  cases x <;> simp_all [Event.isClosing, Event.isDone, Event.isFailedFlushClean, Event.isEnd,
    Event.isScan]

theorem flushCleanEvents_not_done (i : Nat) (outs : List (Option Err × Option Err)) :
    ∀ x ∈ flushCleanEvents i outs, x.isDone = false := by
  intro x hx
  rcases flushCleanEvents_mem i outs x hx with ⟨k, a, rfl⟩ | ⟨k, b, rfl⟩ <;> rfl

/-! ## The commit comes after every flush and clean has succeeded (C1) -/

/-- C1: in every run, whatever the sinks and the collaborators answer, `Done`
is called at most once; when it is called, the calls before it include a
`Flush` and a `Clean` of every sink of the run that returned no error, and no
`Flush` or `Clean` of the run returned an error; so a run in which a `Flush`
or `Clean` returned an error never calls `Done`. -/
theorem done_only_after_flush_clean (env : Env) (wid : Int) (source : Source)
    (sinks : List Sinker) :
    (processAgentJobs env wid source sinks).trace.countP Event.isDone ≤ 1
    ∧ (∀ c rd, Event.done c rd ∈ (processAgentJobs env wid source sinks).trace →
        (∃ pre post,
          (processAgentJobs env wid source sinks).trace = pre ++ Event.done c rd :: post
          ∧ ∀ i, i < sinks.length → Event.flush i none ∈ pre ∧ Event.clean i none ∈ pre)
        ∧ ∀ x ∈ (processAgentJobs env wid source sinks).trace,
            x.isFailedFlushClean = false)
    ∧ ((∃ x ∈ (processAgentJobs env wid source sinks).trace, x.isFailedFlushClean = true) →
        ∀ c rd, Event.done c rd ∉ (processAgentJobs env wid source sinks).trace) := by
  obtain ⟨pre, d, fin, post, e, berr, htr, hpre, hs, hpost, _, hcase⟩ :=
    run_trace env wid source sinks
  have hd := hs.isScan
  have key : (fin = [] ∨ ∃ outs : List (Option Err × Option Err), outs.length = sinks.length ∧
      ((∃ err, lastFailure sinks (flushCleanEvents 0 outs) = some err
          ∧ fin = flushCleanEvents 0 outs)
      ∨ (lastFailure sinks (flushCleanEvents 0 outs) = none
          ∧ ∃ c rd, fin = flushCleanEvents 0 outs ++ [Event.done c rd]))) := by
    rcases hcase with ⟨_, _, h, _⟩ | ⟨_, cursor, got, h⟩
    · exact Or.inl h
    · rcases h with ⟨_, h, _⟩ | ⟨_, outs, hlen, h⟩
      · exact Or.inl h
      · rcases h with ⟨err, h1, h2, _⟩ | ⟨h1, rd, h2, _⟩
        · exact Or.inr ⟨outs, hlen, Or.inl ⟨err, h1, h2⟩⟩
        · exact Or.inr ⟨outs, hlen, Or.inr ⟨h1, cursor, rd, h2⟩⟩
  have hnd_pre : ∀ x ∈ pre, x.isDone = false := fun x hx => (x.setup_not_end (hpre x hx)).1
  have hnd_d : ∀ x ∈ d, x.isDone = false := fun x hx => (x.scan_not_end (hd x hx)).1
  have hnd_post : ∀ x ∈ post, x.isDone = false :=
    fun x hx => (x.closing_not_end (hpost x hx)).1
  have hnf_pre : ∀ x ∈ pre, x.isFailedFlushClean = false :=
    fun x hx => (x.setup_not_end (hpre x hx)).2.1
  have hnf_d : ∀ x ∈ d, x.isFailedFlushClean = false :=
    fun x hx => (x.scan_not_end (hd x hx)).2.1
  have hnf_post : ∀ x ∈ post, x.isFailedFlushClean = false :=
    fun x hx => (x.closing_not_end (hpost x hx)).2.1
  have c_pre : pre.countP Event.isDone = 0 := by
    rw [List.countP_eq_zero]; intro x hx; simp [hnd_pre x hx]
  have c_d : d.countP Event.isDone = 0 := by
    rw [List.countP_eq_zero]; intro x hx; simp [hnd_d x hx]
  have c_post : post.countP Event.isDone = 0 := by
    rw [List.countP_eq_zero]; intro x hx; simp [hnd_post x hx]
  -- the three facts, from the two possible ends of a run
  have main : (processAgentJobs env wid source sinks).trace.countP Event.isDone ≤ 1
      ∧ (∀ c rd, Event.done c rd ∈ (processAgentJobs env wid source sinks).trace →
        (∃ pre post,
          (processAgentJobs env wid source sinks).trace = pre ++ Event.done c rd :: post
          ∧ ∀ i, i < sinks.length → Event.flush i none ∈ pre ∧ Event.clean i none ∈ pre)
        ∧ ∀ x ∈ (processAgentJobs env wid source sinks).trace,
            x.isFailedFlushClean = false) := by
    rw [htr]
    rcases key with hfin | ⟨outs, hlen, ⟨err, _, hfin⟩ | ⟨hok, c0, rd0, hfin⟩⟩
    · subst hfin
      refine ⟨by simp [List.countP_append, c_pre, c_d, c_post], ?_⟩
      intro c rd hmem
      simp only [List.append_nil, List.mem_append] at hmem
      rcases hmem with (h | h) | h
      · simpa [Event.isDone] using hnd_pre _ h
      · simpa [Event.isDone] using hnd_d _ h
      · simpa [Event.isDone] using hnd_post _ h
    · subst hfin
      have c_fin : (flushCleanEvents 0 outs).countP Event.isDone = 0 := by
        rw [List.countP_eq_zero]; intro x hx; simp [flushCleanEvents_not_done 0 outs x hx]
      refine ⟨by simp [List.countP_append, c_pre, c_d, c_post, c_fin], ?_⟩
      intro c rd hmem
      simp only [List.mem_append] at hmem
      rcases hmem with ((h | h) | h) | h
      · simpa [Event.isDone] using hnd_pre _ h
      · simpa [Event.isDone] using hnd_d _ h
      · simpa [Event.isDone] using flushCleanEvents_not_done 0 outs _ h
      · simpa [Event.isDone] using hnd_post _ h
    · subst hfin
      have c_fin : (flushCleanEvents 0 outs).countP Event.isDone = 0 := by
        rw [List.countP_eq_zero]; intro x hx; simp [flushCleanEvents_not_done 0 outs x hx]
      refine ⟨by simp [List.countP_append, c_pre, c_d, c_post, c_fin, Event.isDone], ?_⟩
      intro c rd hmem
      have heq : Event.done c rd = Event.done c0 rd0 := by
        simp only [List.mem_append, List.mem_singleton] at hmem
        rcases hmem with ((h | h) | h | h) | h
        · simpa [Event.isDone] using hnd_pre _ h
        · simpa [Event.isDone] using hnd_d _ h
        · simpa [Event.isDone] using flushCleanEvents_not_done 0 outs _ h
        · exact h
        · simpa [Event.isDone] using hnd_post _ h
      rw [heq]
      refine ⟨⟨pre ++ d ++ flushCleanEvents 0 outs, post, by simp, ?_⟩, ?_⟩
      · intro i hi
        have := flushCleanEvents_all_ok sinks 0 outs hok i (by omega)
        simp only [Nat.zero_add] at this
        exact ⟨List.mem_append_right _ this.1, List.mem_append_right _ this.2⟩
      · intro x hx
        simp only [List.mem_append, List.mem_singleton] at hx
        rcases hx with ((h | h) | h | h) | h
        · exact hnf_pre _ h
        · exact hnf_d _ h
        · exact lastFailure_none sinks _ hok _ h
        · subst h; rfl
        · exact hnf_post _ h
  refine ⟨main.1, main.2, ?_⟩
  rintro ⟨x, hx, hfail⟩ c rd hmem
  have := (main.2 c rd hmem).2 x hx
  rw [this] at hfail
  exact Bool.false_ne_true hfail

/-! ## A failed write ends the run (C6) -/

theorem ScanTrace.failed_write {sinks : List Sinker} {d : List Event} {e : Option Err}
    (h : ScanTrace sinks d e) (i : Nat) (name rs : String) (e0 : Err)
    (hm : Event.write i name rs (some e0) ∈ d) :
    ∃ pre s, d = pre ++ writesOk 0 i name rs ++ [Event.write i name rs (some e0)]
      ∧ sinks[i]? = some s ∧ e = some (wrap e0 ("sink.write: " ++ s.Name)) := by
  induction h with
  | finished => simp at hm
  | silent e => simp at hm
  | writeFailed k s e1 name1 rs1 hk =>
    rcases List.mem_append.1 hm with h1 | h1
    · obtain ⟨_, _, _, h2⟩ := writesOk_mem _ _ _ _ _ h1
      simp at h2
    · simp only [List.mem_singleton, Event.write.injEq, Option.some.injEq] at h1
      obtain ⟨rfl, rfl, rfl, rfl⟩ := h1
      exact ⟨[], s, by simp, hk, rfl⟩
  | saveFailed d c e1 hd =>
    rcases List.mem_append.1 hm with h1 | h1
    · rcases hd with rfl | ⟨name1, rs1, rfl⟩
      · simp at h1
      · obtain ⟨_, _, _, h2⟩ := writesOk_mem _ _ _ _ _ h1
        simp at h2
    · simp at h1
  | saved c d err _ ih =>
    rcases List.mem_cons.1 hm with h1 | h1
    · simp at h1
    · obtain ⟨pre, s, h2, h3, h4⟩ := ih h1
      exact ⟨Event.save c none :: pre, s, by simp [h2], h3, h4⟩
  | delivered name1 rs1 c d err _ ih =>
    rcases List.mem_append.1 hm with h1 | h1
    · obtain ⟨_, _, _, h2⟩ := writesOk_mem _ _ _ _ _ h1
      simp at h2
    · rcases List.mem_cons.1 h1 with h2 | h2
      · simp at h2
      · obtain ⟨pre, s, h3, h4, h5⟩ := ih h2
        exact ⟨writesOk 0 sinks.length name1 rs1 ++ Event.save c none :: pre, s,
          by simp [h3], h4, h5⟩

theorem EndShape.isEnd {sinks : List Sinker} {c : Int} {g : Bool} {fin : List Event}
    {err : Option Err} (h : EndShape sinks c g fin err) : ∀ x ∈ fin, x.isEnd = true := by
  intro x hx
  rcases h with ⟨_, rfl, _⟩ | ⟨_, outs, _, ⟨_, _, rfl, _⟩ | ⟨_, rd, rfl, _⟩⟩
  · simp at hx
  · rcases flushCleanEvents_mem 0 outs x hx with ⟨k, a, rfl⟩ | ⟨k, b, rfl⟩ <;> rfl
  · rcases List.mem_append.1 hx with h1 | h1
    · rcases flushCleanEvents_mem 0 outs x h1 with ⟨k, a, rfl⟩ | ⟨k, b, rfl⟩ <;> rfl
    · simp at h1; subst h1; rfl

/-- C6: sink writes are fail-fast.  The `Write` and `Save` calls of a run are
those of a scan (every delivered record is written to the sinks in slice
order, then saved).  When a `Write` on sink `i` returns an error, the calls
just before it are the successful writes of the same record on the sinks
before `i`, the only calls after it are the deferred closes (no further
`Write`, no `Save`), no `Flush`, `Clean` or `Done` is called in the run, and
the run returns that error wrapped with the name of the sink, given that the
deferred `safeClose` hands the error on unchanged. -/
theorem write_failure_fail_fast (env : Env) (wid : Int) (source : Source)
    (sinks : List Sinker) (i : Nat) (name rs : String) (e0 : Err)
    (hsc : ∀ tr err, env.safeClose tr err = err)
    (hfail : Event.write i name rs (some e0) ∈ (processAgentJobs env wid source sinks).trace) :
    (∃ pre d post e, (processAgentJobs env wid source sinks).trace = pre ++ d ++ post
        ∧ ScanTrace sinks d e ∧ (∀ x ∈ pre, x.isScan = false) ∧ (∀ x ∈ post, x.isScan = false))
    ∧ ∃ pre post s,
        (processAgentJobs env wid source sinks).trace
          = pre ++ writesOk 0 i name rs ++ [Event.write i name rs (some e0)] ++ post
        ∧ sinks[i]? = some s
        ∧ (processAgentJobs env wid source sinks).err
            = some (wrap e0 ("sink.write: " ++ s.Name))
        ∧ (∀ x ∈ post, x.isClosing = true)
        ∧ ∀ x ∈ (processAgentJobs env wid source sinks).trace, x.isEnd = false := by
  obtain ⟨pre, d, fin, post, e, berr, htr, hpre, hs, hpost, herr, hcase⟩ :=
    run_trace env wid source sinks
  have hfin : ∀ x ∈ fin, x.isEnd = true := by
    rcases hcase with ⟨_, _, rfl, _⟩ | ⟨_, _, _, h⟩
    · simp
    · exact h.isEnd
  have hfin_scan : ∀ x ∈ fin, x.isScan = false := by
    intro x hx
    have := hfin x hx
    cases x <;> simp_all [Event.isEnd, Event.isScan]
  constructor
  · refine ⟨pre, d, fin ++ post, e, by simp [htr], hs,
      fun x hx => (x.setup_not_end (hpre x hx)).2.2.2, ?_⟩
    intro x hx
    rcases List.mem_append.1 hx with h | h
    · exact hfin_scan x h
    · exact (x.closing_not_end (hpost x h)).2.2.2
  · have hmem : Event.write i name rs (some e0) ∈ d := by
      rw [htr] at hfail
      simp only [List.mem_append] at hfail
      rcases hfail with ((h | h) | h) | h
      · simpa [Event.isSetup] using hpre _ h
      · exact h
      · simpa [Event.isScan] using hfin_scan _ h
      · simpa [Event.isClosing] using hpost _ h
    obtain ⟨pre0, s, hd, hsink, he⟩ := hs.failed_write i name rs e0 hmem
    rcases hcase with ⟨err, h1, h2, h3⟩ | ⟨h1, _⟩
    · subst h2
      rw [he] at h1
      simp only [Option.some.injEq] at h1
      refine ⟨pre ++ pre0, post, s, by simp [htr, hd], hsink, ?_, hpost, ?_⟩
      · rw [herr hsc, h3, h1]
      · intro x hx
        rw [htr] at hx
        simp only [List.append_nil, List.mem_append] at hx
        rcases hx with (h | h) | h
        · exact (x.setup_not_end (hpre x h)).2.2.1
        · exact (x.scan_not_end (hs.isScan x h)).2.2
        · exact (x.closing_not_end (hpost x h)).2.2.1
    · rw [he] at h1
      simp at h1

theorem write_failure_fail_fast_witness :
    (∀ tr err, (demoEnv [demoFetched 11 0 150]).safeClose tr err = err)
    ∧ Event.write 1 "agent_job" "json" (some "down") ∈
        (processAgentJobs (demoEnv [demoFetched 11 0 150]) 1 (demoSource 0 JobsMode.JobsAll)
          [okSink "a", failSink "b"]).trace
    ∧ ∃ pre post s,
        (processAgentJobs (demoEnv [demoFetched 11 0 150]) 1 (demoSource 0 JobsMode.JobsAll)
            [okSink "a", failSink "b"]).trace
          = pre ++ writesOk 0 1 "agent_job" "json"
              ++ [Event.write 1 "agent_job" "json" (some "down")] ++ post
        ∧ [okSink "a", failSink "b"][1]? = some s
        ∧ (processAgentJobs (demoEnv [demoFetched 11 0 150]) 1 (demoSource 0 JobsMode.JobsAll)
            [okSink "a", failSink "b"]).err = some (wrap "down" ("sink.write: " ++ s.Name))
        ∧ (∀ x ∈ post, x.isClosing = true)
        ∧ ∀ x ∈ (processAgentJobs (demoEnv [demoFetched 11 0 150]) 1
            (demoSource 0 JobsMode.JobsAll) [okSink "a", failSink "b"]).trace,
            x.isEnd = false :=
  ⟨fun _ _ => rfl, by decide,
    (write_failure_fail_fast (demoEnv [demoFetched 11 0 150]) 1 (demoSource 0 JobsMode.JobsAll)
      [okSink "a", failSink "b"] 1 "agent_job" "json" "down" (fun _ _ => rfl) (by decide)).2⟩

/-! ## A conflict of the concurrency guard (C8) -/

/-- C8 fails as stated: when `CheckDupe` (or `SwitchV2`) rejects the run, the
function returns an error, not `nil`. -/
theorem guard_conflict_counterexample :
    (processAgentJobs { demoEnv [] with checkDupe := some "duplicate" } 1
        (demoSource 0 JobsMode.JobsAll) [okSink "a"]).err = some "dupe.check: duplicate"
    ∧ (processAgentJobs { demoEnv [] with switchV2 := some "duplicate" } 1
        (demoSource 0 JobsMode.JobsAll) [okSink "a"]).err
        = some "status.switchv2: duplicate" := by
  constructor <;> decide

/-- C8, as the code has it: when the run gets as far as the concurrency guard
and `SwitchV2` or `CheckDupe` rejects it with an error `e`, the function
returns a result with zero rows together with `e` wrapped (`status.switchv2`
or `dupe.check`), given that the deferred `safeClose` hands the error on
unchanged; the only calls of the run are the guard calls and the two deferred
closes of the database handle, so no sink is opened, nothing is scanned,
written, saved or committed. -/
theorem guard_conflict (env : Env) (wid : Int) (source : Source) (sinks : List Sinker)
    (cs : String) (info : InstanceInfo) (e : Err)
    (hc : env.connectionString = Except.ok cs) (ho : env.sqlOpen = none)
    (hp : env.ping = none) (hg : env.getInstance = Except.ok info)
    (hsc : ∀ tr err, env.safeClose tr err = err)
    (hconf : env.switchV2 = some e ∨ (env.switchV2 = none ∧ env.checkDupe = some e)) :
    (processAgentJobs env wid source sinks).result.Rows = 0
    ∧ (processAgentJobs env wid source sinks).err
        = some (wrap e (if env.switchV2 = none then "dupe.check" else "status.switchv2"))
    ∧ (processAgentJobs env wid source sinks).trace
        = (if env.switchV2 = none then [Event.switchV2 none, Event.checkDupe (some e)]
            else [Event.switchV2 (some e)]) ++ [Event.dbClose, Event.dbClose] := by
  rcases hconf with h | ⟨h1, h2⟩
  · simp [processAgentJobs, setup, guardAndOpen, hc, ho, hp, hg, h, runDeferred, hsc]
  · simp [processAgentJobs, setup, guardAndOpen, hc, ho, hp, hg, h1, h2, runDeferred, hsc]

theorem guard_conflict_witness :
    ({ demoEnv [] with checkDupe := some "duplicate" } : Env).connectionString = Except.ok "cxn"
    ∧ (processAgentJobs { demoEnv [] with checkDupe := some "duplicate" } 1
        (demoSource 0 JobsMode.JobsAll) [okSink "a"]).result.Rows = 0
    ∧ (processAgentJobs { demoEnv [] with checkDupe := some "duplicate" } 1
        (demoSource 0 JobsMode.JobsAll) [okSink "a"]).err
        = some (wrap "duplicate" "dupe.check")
    ∧ (processAgentJobs { demoEnv [] with checkDupe := some "duplicate" } 1
        (demoSource 0 JobsMode.JobsAll) [okSink "a"]).trace
        = [Event.switchV2 none, Event.checkDupe (some "duplicate"), Event.dbClose,
            Event.dbClose] :=
  ⟨rfl, guard_conflict { demoEnv [] with checkDupe := some "duplicate" } 1
    (demoSource 0 JobsMode.JobsAll) [okSink "a"] "cxn"
    { Domain := "dom", Computer := "host", Server := "srv\\i1", Version := "15",
      ProductVersion := "15.0" } "duplicate" rfl rfl rfl rfl (fun _ _ => rfl)
    (Or.inr ⟨rfl, rfl⟩)⟩

/-! ## Flush and clean on every sink, then the commit (C7) -/

/-- C7 fails as stated: with one accepted row and no failing `Flush` or
`Clean`, the run calls `Done`, and when `Done` itself returns an error the run
returns that error, not `nil`. -/
theorem commit_error_counterexample :
    (processAgentJobs { demoEnv [demoFetched 11 0 150] with done := fun _ _ => some "disk full" }
        1 (demoSource 0 JobsMode.JobsAll) [okSink "a"]).err = some "status.done: disk full"
    ∧ (∀ x ∈ (processAgentJobs
          { demoEnv [demoFetched 11 0 150] with done := fun _ _ => some "disk full" }
          1 (demoSource 0 JobsMode.JobsAll) [okSink "a"]).trace, x.isFailedFlushClean = false)
    ∧ Event.done 11 (some "disk full") ∈ (processAgentJobs
          { demoEnv [demoFetched 11 0 150] with done := fun _ _ => some "disk full" }
          1 (demoSource 0 JobsMode.JobsAll) [okSink "a"]).trace := by
  refine ⟨?_, ?_, ?_⟩ <;> decide

/-- C7, as the code has it: when the scan loop ends without an error (by
exhaustion, row cap or stop boundary) after a row was saved, the run calls
`Flush` and then `Clean` on every sink in slice order, whatever the earlier
of these calls returned.  If one of them failed, these are the last calls
before the deferred closes (no `Done`) and the run returns the error of the
last failing call; if none failed, `Done` is called next with the cursor of
the scan, and the run returns `nil` when `Done` succeeds and the wrapped error
of `Done` when it fails.  The returned error is as the deferred `safeClose`
leaves it, here unchanged. -/
theorem flush_clean_then_commit (env : Env) (wid : Int) (source : Source)
    (sinks : List Sinker) (r : Ready) (ds : List Deferred) (st : LoopState)
    (hset : setup env source sinks = (Setup.ready r, ds))
    (hscan : scanLoop env source sinks r.info
      { result := r.result, instanceID := 0, gotRows := false, startAtHit := false,
        trace := r.trace } r.rows = (st, none))
    (hgot : st.gotRows = true)
    (hsc : ∀ tr err, env.safeClose tr err = err) :
    ∃ outs : List (Option Err × Option Err), outs.length = sinks.length
      ∧ ((∃ x ∈ flushCleanEvents 0 outs, x.isFailedFlushClean = true) →
          (processAgentJobs env wid source sinks).trace
            = st.trace ++ flushCleanEvents 0 outs ++ ds.map Deferred.event
          ∧ (processAgentJobs env wid source sinks).err
            = lastFailure sinks (flushCleanEvents 0 outs)
          ∧ (processAgentJobs env wid source sinks).err ≠ none)
      ∧ ((∀ x ∈ flushCleanEvents 0 outs, x.isFailedFlushClean = false) →
          ∃ rd, (processAgentJobs env wid source sinks).trace
              = st.trace ++ flushCleanEvents 0 outs ++ [Event.done st.instanceID rd]
                ++ ds.map Deferred.event
            ∧ (processAgentJobs env wid source sinks).err
              = rd.map (fun e => wrap e "status.done")) := by
  rw [run_ready env wid source sinks r ds hset]
  have hbody : body env source sinks r = finish env sinks st := by
    unfold body
    rw [hscan]
  obtain ⟨fin, hf, _, hend⟩ := finish_spec env sinks st
  rw [hgot] at hend
  rcases hend with ⟨h, _⟩ | ⟨_, outs, hlen, hcase⟩
  · exact absurd h (by simp)
  · refine ⟨outs, hlen, ?_, ?_⟩
    · rintro ⟨x, hx, hfail⟩
      rcases hcase with ⟨e, hl, hfin, herr⟩ | ⟨hl, _⟩
      · refine ⟨?_, ?_, ?_⟩
        · rw [runDeferred_trace, hbody, hf, hfin]
        · rw [runDeferred_err env hsc, hbody, herr, hl]
        · rw [runDeferred_err env hsc, hbody, herr]; simp
      · have := lastFailure_none sinks _ hl x hx
        rw [this] at hfail
        exact absurd hfail (by simp)
    · intro hall
      rcases hcase with ⟨e, hl, _⟩ | ⟨_, rd, hfin, herr⟩
      · obtain ⟨x, hx, hfail⟩ := lastFailure_some sinks _ e hl
        rw [hall x hx] at hfail
        exact absurd hfail (by simp)
      · refine ⟨rd, ?_, ?_⟩
        · rw [runDeferred_trace, hbody, hf, hfin]; simp
        · rw [runDeferred_err env hsc, hbody, herr]

/-- A run over one row with two sinks, the first of which fails to flush: the
scan ends without an error after saving the row. -/
theorem flush_clean_then_commit_witness :
    setup (demoEnv [demoFetched 11 0 150]) (demoSource 0 JobsMode.JobsAll)
        [flakySink "a", okSink "b"]
      = (Setup.ready (demoReady [demoFetched 11 0 150]), demoDeferred)
    ∧ ∃ outs : List (Option Err × Option Err), outs.length = 2
      ∧ ((∃ x ∈ flushCleanEvents 0 outs, x.isFailedFlushClean = true) →
          (processAgentJobs (demoEnv [demoFetched 11 0 150]) 1 (demoSource 0 JobsMode.JobsAll)
              [flakySink "a", okSink "b"]).trace
            = (demoReady [demoFetched 11 0 150]).trace
                ++ [Event.write 0 "agent_job" "json" none, Event.write 1 "agent_job" "json" none,
                    Event.save 11 none]
                ++ flushCleanEvents 0 outs ++ demoDeferred.map Deferred.event
          ∧ (processAgentJobs (demoEnv [demoFetched 11 0 150]) 1 (demoSource 0 JobsMode.JobsAll)
              [flakySink "a", okSink "b"]).err
            = lastFailure [flakySink "a", okSink "b"] (flushCleanEvents 0 outs)
          ∧ (processAgentJobs (demoEnv [demoFetched 11 0 150]) 1 (demoSource 0 JobsMode.JobsAll)
              [flakySink "a", okSink "b"]).err ≠ none)
      ∧ ((∀ x ∈ flushCleanEvents 0 outs, x.isFailedFlushClean = false) →
          ∃ rd, (processAgentJobs (demoEnv [demoFetched 11 0 150]) 1
                (demoSource 0 JobsMode.JobsAll) [flakySink "a", okSink "b"]).trace
              = (demoReady [demoFetched 11 0 150]).trace
                ++ [Event.write 0 "agent_job" "json" none, Event.write 1 "agent_job" "json" none,
                    Event.save 11 none]
                ++ flushCleanEvents 0 outs ++ [Event.done 11 rd]
                ++ demoDeferred.map Deferred.event
            ∧ (processAgentJobs (demoEnv [demoFetched 11 0 150]) 1
                (demoSource 0 JobsMode.JobsAll) [flakySink "a", okSink "b"]).err
              = rd.map (fun e => wrap e "status.done")) :=
  ⟨rfl, flush_clean_then_commit (demoEnv [demoFetched 11 0 150]) 1
    (demoSource 0 JobsMode.JobsAll) [flakySink "a", okSink "b"]
    (demoReady [demoFetched 11 0 150]) demoDeferred
    { result := { (demoReady [demoFetched 11 0 150]).result with Rows := 1 },
      instanceID := 11, gotRows := true, startAtHit := false,
      trace := (demoReady [demoFetched 11 0 150]).trace
        ++ [Event.write 0 "agent_job" "json" none, Event.write 1 "agent_job" "json" none,
            Event.save 11 none] }
    rfl rfl rfl (fun _ _ => rfl)⟩

/-! ## Which rows are written to the sinks (C3) -/

theorem deliver_iff (source : Source) (j : jobResult) :
    deliver source j = true ↔
      (source.AgentJobs = JobsMode.JobsAll
        ∨ (source.AgentJobs = JobsMode.JobsFailed
            ∧ (j.RunStatus = 0 ∨ j.RunStatus = 2 ∨ j.RunStatus = 3))) := by
  simp [deliver, or_assoc]

theorem loopBody_filtered (env : Env) (source : Source) (sinks : List Sinker)
    (info : InstanceInfo) (st : LoopState) (j0 : jobResult) (t : Time)
    (h : ¬ (source.StartAt ≤ t ∧ t ≤ source.StopAt ∧ deliver source (parsed j0 t) = true)) :
    (loopBody env source sinks info st (Fetched.row j0 (Except.ok t))).state.trace = st.trace
    ∨ ∃ rd, (loopBody env source sinks info st (Fetched.row j0 (Except.ok t))).state.trace
        = st.trace ++ [Event.save j0.InstanceID rd] := by
  unfold loopBody
  by_cases hcap : source.Rows > 0 ∧ st.result.Rows ≥ source.Rows
  · simp [hcap, Step.state]
  · simp only [hcap, if_false]
    by_cases h1 : t < source.StartAt
    · simp [h1, Step.state]
    · by_cases h2 : t > source.StopAt
      · simp [h1, h2, Step.state]
      · have hd : deliver source { j0 with TimestampUTC := t } = false := by
          cases hd : deliver source (parsed j0 t) with
          | false => exact hd
          | true => exact absurd ⟨not_lt.mp h1, not_lt.mp h2, hd⟩ h
        simp only [h1, h2, hd, if_false, Bool.false_eq_true, saveRow]
        right
        cases env.save st.trace j0.InstanceID with
        | none => exact ⟨none, rfl⟩
        | some e => exact ⟨some e, rfl⟩

theorem loopBody_extends (env : Env) (source : Source) (sinks : List Sinker)
    (info : InstanceInfo) (st : LoopState) (f : Fetched) :
    ∃ d, (loopBody env source sinks info st f).state.trace = st.trace ++ d := by
  cases h : loopBody env source sinks info st f with
  | brk st1 =>
    obtain ⟨h1, _⟩ := loopBody_brk _ _ _ _ _ _ _ h
    exact ⟨[], by simp [Step.state, h1]⟩
  | ret st1 e =>
    obtain ⟨d, hd, _⟩ := loopBody_ret _ _ _ _ _ _ _ _ h
    exact ⟨d, hd⟩
  | next st1 =>
    obtain ⟨_, j0, t, _, hcase⟩ := loopBody_next _ _ _ _ _ _ _ h
    rcases hcase with ⟨_, h1⟩ | ⟨_, _, _, h1⟩ | ⟨_, _, _, rs0, rs, _, _, h1⟩
    · exact ⟨[], by simp [Step.state, h1]⟩
    · exact ⟨[Event.save j0.InstanceID none], by simp [Step.state, h1]⟩
    · exact ⟨writesOk 0 sinks.length j0.Name rs ++ [Event.save j0.InstanceID none],
        by simp [Step.state, h1]⟩

theorem writeSinks_all_ok (sinks : List Sinker) (i : Nat) (name rs : String) (tr : List Event)
    (h : ∀ (k : Nat) (s : Sinker), sinks[k]? = some s →
      s.Write (tr ++ writesOk i k name rs) name rs = none) :
    writeSinks sinks i name rs tr = (tr ++ writesOk i sinks.length name rs, none) := by
  induction sinks generalizing i tr with
  | nil => simp [writeSinks, writesOk]
  | cons s rest ih =>
    have h0 : s.Write tr name rs = none := by
      have := h 0 s (by simp)
      simpa [writesOk] using this
    unfold writeSinks
    simp only [h0]
    rw [ih (i + 1) (tr ++ [Event.write i name rs none])]
    · simp [writesOk, List.range'_succ]
    · intro k s1 hk
      have := h (k + 1) s1 (by simpa using hk)
      simpa [writesOk, List.range'_succ] using this

theorem writeSinks_extends (sinks : List Sinker) (i : Nat) (name rs : String)
    (tr : List Event) : ∃ d, (writeSinks sinks i name rs tr).1 = tr ++ d := by
  rcases h : writeSinks sinks i name rs tr with ⟨tr', e⟩
  cases e with
  | none => exact ⟨_, writeSinks_ok _ _ _ _ _ _ h⟩
  | some e =>
    obtain ⟨k, s, e0, _, _, htr⟩ := writeSinks_err _ _ _ _ _ _ _ h
    exact ⟨_, by rw [htr, List.append_assoc]⟩

theorem loopBody_delivers (env : Env) (source : Source) (sinks : List Sinker)
    (info : InstanceInfo) (st : LoopState) (j0 : jobResult) (t : Time) (rs0 rs : String)
    (hcap : ¬ capReached source st)
    (h1 : source.StartAt ≤ t) (h2 : t ≤ source.StopAt)
    (hd : deliver source (parsed j0 t) = true)
    (hj : env.toJSON (project source (buildBase env info (parsed j0 t))) = Except.ok rs0)
    (hm : env.processMods rs0 source.Adds source.Copies source.Moves = Except.ok rs) :
    loopBody env source sinks info st (Fetched.row j0 (Except.ok t))
      = match writeSinks sinks 0 j0.Name rs st.trace with
        | (tr, some e) => Step.ret { st with instanceID := j0.InstanceID, trace := tr } e
        | (tr, none) =>
          saveRow env
            { st with instanceID := j0.InstanceID, trace := tr,
                      result := { st.result with Rows := st.result.Rows + 1 } } (parsed j0 t) := by
  have hcap' : ¬ (source.Rows > 0 ∧ st.result.Rows ≥ source.Rows) := hcap
  have h1' : ¬ t < source.StartAt := not_lt.mpr h1
  have h2' : ¬ t > source.StopAt := not_lt.mpr h2
  have hd' : deliver source { j0 with TimestampUTC := t } = true := hd
  have hj' : env.toJSON (project source (buildBase env info { j0 with TimestampUTC := t }))
      = Except.ok rs0 := hj
  unfold loopBody
  simp only [hcap', h1', h2', hd', hj', hm, if_false, if_true]
  rfl

theorem loopBody_not_delivered (env : Env) (source : Source) (sinks : List Sinker)
    (info : InstanceInfo) (st : LoopState) (j0 : jobResult) (t : Time)
    (hcap : ¬ capReached source st)
    (h1 : source.StartAt ≤ t) (h2 : t ≤ source.StopAt)
    (hd : deliver source (parsed j0 t) = false) :
    loopBody env source sinks info st (Fetched.row j0 (Except.ok t))
      = saveRow env { st with instanceID := j0.InstanceID } (parsed j0 t) := by
  have hcap' : ¬ (source.Rows > 0 ∧ st.result.Rows ≥ source.Rows) := hcap
  have h1' : ¬ t < source.StartAt := not_lt.mpr h1
  have h2' : ¬ t > source.StopAt := not_lt.mpr h2
  have hd' : deliver source { j0 with TimestampUTC := t } = false := hd
  unfold loopBody
  simp only [hcap', h1', h2', hd', if_false, Bool.false_eq_true]
  rfl

theorem writeSinks_first (s : Sinker) (rest : List Sinker) (i : Nat) (name rs : String)
    (tr : List Event) :
    ∃ d, (writeSinks (s :: rest) i name rs tr).1
      = tr ++ Event.write i name rs (s.Write tr name rs) :: d := by
  unfold writeSinks
  cases hw : s.Write tr name rs with
  | some e => exact ⟨[], rfl⟩
  | none =>
    obtain ⟨d, hd⟩ := writeSinks_extends rest (i + 1) name rs (tr ++ [Event.write i name rs none])
    exact ⟨d, by simp only [hd]; simp⟩

theorem saveRow_trace (env : Env) (st : LoopState) (j : jobResult) :
    (saveRow env st j).state.trace
        = st.trace ++ [Event.save j.InstanceID (env.save st.trace j.InstanceID)]
    ∧ (saveRow env st j).state.result = st.result := by
  unfold saveRow
  cases env.save st.trace j.InstanceID <;> simp [Step.state]

/-- C3: for a row the scan loop reaches (the row cap is not reached, and
`rows.Scan` and `time.Parse` succeeded), the record of the row is written to
the sinks exactly when its UTC timestamp is not before `StartAt`, not after
`StopAt`, and the mode is `JobsAll`, or `JobsFailed` with `run_status` 0, 2 or
3.  Whatever the iteration does, a `Write` call in it implies these
conditions; a row before `StartAt` makes no call at all; an iteration that
ends without an error or `break` has, under these conditions, written the
serialised record once to every sink in slice order, saved the row and counted
it in `result.Rows`, and otherwise has written nothing and not counted it.
In the other direction, under these conditions and once `ToJSON` and
`ProcessMods` have produced the text of the record, the iteration does write
it: the first sink receives the `Write`, and when no `Write` of the record
fails the calls of the iteration are that `Write` on every sink in slice
order followed by the `Save` of the row, the row is counted, and with a
successful `Save` the loop goes on; a row inside the window that fails the
mode filter makes the `Save` call only and is not counted.
With `JobsFailed`, of the statuses 0, 1, 2, 3 exactly 0, 2, 3 pass. -/
theorem delivery_filter (env : Env) (source : Source) (sinks : List Sinker)
    (info : InstanceInfo) (st : LoopState) (j0 : jobResult) (t : Time)
    (hcap : ¬ capReached source st) :
    (∃ d, (loopBody env source sinks info st (Fetched.row j0 (Except.ok t))).state.trace
          = st.trace ++ d
        ∧ ((∃ x ∈ d, x.isWrite = true) →
        source.StartAt ≤ t ∧ t ≤ source.StopAt
          ∧ (source.AgentJobs = JobsMode.JobsAll
              ∨ (source.AgentJobs = JobsMode.JobsFailed
                  ∧ (j0.RunStatus = 0 ∨ j0.RunStatus = 2 ∨ j0.RunStatus = 3)))))
    ∧ (t < source.StartAt →
        loopBody env source sinks info st (Fetched.row j0 (Except.ok t))
          = Step.next { st with startAtHit := true })
    ∧ (∀ st', loopBody env source sinks info st (Fetched.row j0 (Except.ok t)) = Step.next st' →
        ((source.StartAt ≤ t ∧ t ≤ source.StopAt
            ∧ (source.AgentJobs = JobsMode.JobsAll
                ∨ (source.AgentJobs = JobsMode.JobsFailed
                    ∧ (j0.RunStatus = 0 ∨ j0.RunStatus = 2 ∨ j0.RunStatus = 3)))) →
          ∃ rs0 rs,
            env.toJSON (project source (buildBase env info (parsed j0 t))) = Except.ok rs0
            ∧ env.processMods rs0 source.Adds source.Copies source.Moves = Except.ok rs
            ∧ st'.trace = st.trace ++ writesOk 0 sinks.length j0.Name rs
                ++ [Event.save j0.InstanceID none]
            ∧ st'.result.Rows = st.result.Rows + 1)
        ∧ (¬ (source.StartAt ≤ t ∧ t ≤ source.StopAt
            ∧ (source.AgentJobs = JobsMode.JobsAll
                ∨ (source.AgentJobs = JobsMode.JobsFailed
                    ∧ (j0.RunStatus = 0 ∨ j0.RunStatus = 2 ∨ j0.RunStatus = 3)))) →
          st'.result.Rows = st.result.Rows
          ∧ (st'.trace = st.trace ∨ st'.trace = st.trace ++ [Event.save j0.InstanceID none])))
    ∧ ((source.StartAt ≤ t ∧ t ≤ source.StopAt
          ∧ (source.AgentJobs = JobsMode.JobsAll
              ∨ (source.AgentJobs = JobsMode.JobsFailed
                  ∧ (j0.RunStatus = 0 ∨ j0.RunStatus = 2 ∨ j0.RunStatus = 3)))) →
        ∀ rs0 rs,
          env.toJSON (project source (buildBase env info (parsed j0 t))) = Except.ok rs0 →
          env.processMods rs0 source.Adds source.Copies source.Moves = Except.ok rs →
          (∀ s : Sinker, sinks[0]? = some s →
            ∃ d, (loopBody env source sinks info st
                (Fetched.row j0 (Except.ok t))).state.trace
              = st.trace ++ Event.write 0 j0.Name rs (s.Write st.trace j0.Name rs) :: d)
          ∧ ((∀ (k : Nat) (s : Sinker), sinks[k]? = some s →
                s.Write (st.trace ++ writesOk 0 k j0.Name rs) j0.Name rs = none) →
              (loopBody env source sinks info st (Fetched.row j0 (Except.ok t))).state.trace
                = st.trace ++ writesOk 0 sinks.length j0.Name rs
                  ++ [Event.save j0.InstanceID
                      (env.save (st.trace ++ writesOk 0 sinks.length j0.Name rs)
                        j0.InstanceID)]
              ∧ (loopBody env source sinks info st
                  (Fetched.row j0 (Except.ok t))).state.result.Rows = st.result.Rows + 1
              ∧ (env.save (st.trace ++ writesOk 0 sinks.length j0.Name rs) j0.InstanceID
                    = none →
                  loopBody env source sinks info st (Fetched.row j0 (Except.ok t))
                    = Step.next
                        { st with instanceID := j0.InstanceID, gotRows := true,
                                  result := { st.result with Rows := st.result.Rows + 1 },
                                  trace := st.trace ++ writesOk 0 sinks.length j0.Name rs
                                    ++ [Event.save j0.InstanceID none] })))
    ∧ (source.StartAt ≤ t → t ≤ source.StopAt →
        ¬ (source.AgentJobs = JobsMode.JobsAll
            ∨ (source.AgentJobs = JobsMode.JobsFailed
                ∧ (j0.RunStatus = 0 ∨ j0.RunStatus = 2 ∨ j0.RunStatus = 3))) →
        (loopBody env source sinks info st (Fetched.row j0 (Except.ok t))).state.trace
          = st.trace ++ [Event.save j0.InstanceID (env.save st.trace j0.InstanceID)]
        ∧ (loopBody env source sinks info st
            (Fetched.row j0 (Except.ok t))).state.result.Rows = st.result.Rows)
    ∧ [0, 1, 2, 3].filter
        (fun s => deliver (demoSource 0 JobsMode.JobsFailed) (demoRow 11 s)) = [0, 2, 3] := by
  have hdel := deliver_iff source (parsed j0 t)
  have hstatus : (parsed j0 t).RunStatus = j0.RunStatus := rfl
  rw [hstatus] at hdel
  refine ⟨?_, ?_, ?_, ?_, ?_, by decide⟩
  · by_cases hcond : source.StartAt ≤ t ∧ t ≤ source.StopAt
        ∧ (source.AgentJobs = JobsMode.JobsAll
            ∨ (source.AgentJobs = JobsMode.JobsFailed
                ∧ (j0.RunStatus = 0 ∨ j0.RunStatus = 2 ∨ j0.RunStatus = 3)))
    · obtain ⟨d, hd⟩ := loopBody_extends env source sinks info st
        (Fetched.row j0 (Except.ok t))
      exact ⟨d, hd, fun _ => hcond⟩
    · have hcond' : ¬ (source.StartAt ≤ t ∧ t ≤ source.StopAt
          ∧ deliver source (parsed j0 t) = true) := by
        rw [hdel]; exact hcond
      rcases loopBody_filtered env source sinks info st j0 t hcond' with h | ⟨rd, h⟩
      · exact ⟨[], by simp [h], by simp⟩
      · exact ⟨[Event.save j0.InstanceID rd], h, by simp [Event.isWrite]⟩
  · intro hlt
    have hcap' : ¬ (source.Rows > 0 ∧ st.result.Rows ≥ source.Rows) := hcap
    unfold loopBody
    simp [hcap', hlt]
  · intro st' hnext
    obtain ⟨_, j1, t1, hf, hcase⟩ := loopBody_next _ _ _ _ _ _ _ hnext
    simp only [Fetched.row.injEq, Except.ok.injEq] at hf
    obtain ⟨rfl, rfl⟩ := hf
    constructor
    · rintro ⟨h1, h2, h3⟩
      rcases hcase with ⟨hlt, _⟩ | ⟨_, _, hnd, _⟩ | ⟨_, _, _, rs0, rs, hj, hm, hst⟩
      · exact absurd h1 (not_le.mpr hlt)
      · rw [← hdel, hnd] at h3
        exact absurd h3 (by simp)
      · exact ⟨rs0, rs, hj, hm, by rw [hst], by rw [hst]⟩
    · intro hcond
      rcases hcase with ⟨_, hst⟩ | ⟨_, _, _, hst⟩ | ⟨h1, h2, h3, _⟩
      · exact ⟨by rw [hst], Or.inl (by rw [hst])⟩
      · exact ⟨by rw [hst], Or.inr (by rw [hst])⟩
      · exact absurd ⟨h1, h2, hdel.mp h3⟩ hcond
  · rintro ⟨h1, h2, h3⟩ rs0 rs hj hm
    have hbody := loopBody_delivers env source sinks info st j0 t rs0 rs hcap h1 h2
      (hdel.mpr h3) hj hm
    constructor
    · intro s hs
      cases sinks with
      | nil => simp at hs
      | cons s1 rest =>
        simp only [List.getElem?_cons_zero, Option.some.injEq] at hs
        subst hs
        obtain ⟨d, hd⟩ := writeSinks_first s1 rest 0 j0.Name rs st.trace
        rw [hbody]
        rcases hw : writeSinks (s1 :: rest) 0 j0.Name rs st.trace with ⟨tr, e⟩
        rw [hw] at hd
        simp only at hd
        subst hd
        cases e with
        | some e => exact ⟨d, rfl⟩
        | none =>
          simp only
          rw [(saveRow_trace env _ (parsed j0 t)).1]
          exact ⟨d ++ [Event.save (parsed j0 t).InstanceID
            (env.save (st.trace ++ Event.write 0 j0.Name rs (s1.Write st.trace j0.Name rs) :: d)
              (parsed j0 t).InstanceID)], by simp⟩
    · intro hW
      rw [hbody, writeSinks_all_ok sinks 0 j0.Name rs st.trace hW]
      simp only
      refine ⟨(saveRow_trace env _ (parsed j0 t)).1, ?_, ?_⟩
      · rw [(saveRow_trace env _ (parsed j0 t)).2]
      · intro hsave
        have hsave' : env.save (st.trace ++ writesOk 0 sinks.length j0.Name rs)
            (parsed j0 t).InstanceID = none := hsave
        simp only [saveRow, hsave']
        rfl
  · intro h1 h2 hmode
    have hd : deliver source (parsed j0 t) = false := by
      cases hd : deliver source (parsed j0 t) with
      | false => rfl
      | true => exact absurd (hdel.mp hd) hmode
    rw [loopBody_not_delivered env source sinks info st j0 t hcap h1 h2 hd]
    exact ⟨(saveRow_trace env _ (parsed j0 t)).1, by rw [(saveRow_trace env _ (parsed j0 t)).2]⟩

/-- A failed row (`run_status` 0) inside the window under `JobsFailed`, with
two sinks that accept it: the iteration writes the record to both sinks in
order, saves the cursor 11 and counts the row. -/
theorem delivery_filter_witness :
    ¬ capReached (demoSource 0 JobsMode.JobsFailed)
        { result := (demoReady []).result, instanceID := 0, gotRows := false,
          startAtHit := false, trace := [] }
    ∧ loopBody (demoEnv []) (demoSource 0 JobsMode.JobsFailed) [okSink "a", okSink "b"]
          (demoReady []).info
          { result := (demoReady []).result, instanceID := 0, gotRows := false,
            startAtHit := false, trace := [] } (Fetched.row (demoRow 11 0) (Except.ok 150))
        = Step.next
            { result := { (demoReady []).result with Rows := 1 }, instanceID := 11,
              gotRows := true, startAtHit := false,
              trace := [Event.write 0 "agent_job" "json" none,
                Event.write 1 "agent_job" "json" none, Event.save 11 none] } :=
  ⟨by decide,
    ((delivery_filter (demoEnv []) (demoSource 0 JobsMode.JobsFailed)
      [okSink "a", okSink "b"] (demoReady []).info
      { result := (demoReady []).result, instanceID := 0, gotRows := false,
        startAtHit := false, trace := [] } (demoRow 11 0) 150 (by decide)).2.2.2.1
      ⟨by decide, by decide, Or.inr ⟨rfl, Or.inl rfl⟩⟩ "json" "json" rfl rfl).2
      (fun k s hk => by
        rcases k with _ | _ | k
        · simp only [List.getElem?_cons_zero, Option.some.injEq] at hk
          subst hk; rfl
        · simp only [List.getElem?_cons_succ, List.getElem?_cons_zero,
            Option.some.injEq] at hk
          subst hk; rfl
        · simp at hk)
      |>.2.2 rfl⟩

/-! ## The stop boundary (C4) -/

theorem loopBody_stop (env : Env) (source : Source) (sinks : List Sinker) (info : InstanceInfo)
    (st : LoopState) (j0 : jobResult) (t : Time)
    (hstart : source.StartAt ≤ t) (hstop : source.StopAt < t) :
    loopBody env source sinks info st (Fetched.row j0 (Except.ok t)) = Step.brk st := by
  unfold loopBody
  by_cases hcap : source.Rows > 0 ∧ st.result.Rows ≥ source.Rows
  · simp [hcap]
  · have h1 : ¬ t < source.StartAt := not_lt.mpr hstart
    have h2 : t > source.StopAt := hstop
    simp [hcap, h1, h2]

theorem scanLoop_stop (env : Env) (source : Source) (sinks : List Sinker) (info : InstanceInfo)
    (j0 : jobResult) (t : Time) (hstart : source.StartAt ≤ t) (hstop : source.StopAt < t)
    (pre rest : List Fetched) (st : LoopState) :
    scanLoop env source sinks info st (pre ++ Fetched.row j0 (Except.ok t) :: rest)
      = scanLoop env source sinks info st pre := by
  induction pre generalizing st with
  | nil =>
    simp only [List.nil_append, scanLoop]
    rw [loopBody_stop env source sinks info st j0 t hstart hstop]
  | cons f pre ih =>
    simp only [List.cons_append, scanLoop]
    cases loopBody env source sinks info st f with
    | next st1 => exact ih st1
    | brk st1 => rfl
    | ret st1 e => rfl

/-- C4 fails as stated when the window is empty (`StartAt` after `StopAt`): the
first row has a timestamp after `StopAt` and is reached, yet it is skipped as
a row before `StartAt`, the scan goes on to the next row, whose timestamp does
not parse, and the run ends with that error. -/
theorem stop_boundary_counterexample :
    invertedSource.StopAt < 70
    ∧ (processAgentJobs
        (demoEnv [demoFetched 11 0 70, Fetched.row (demoRow 12 0) (Except.error "bad")]) 1
        invertedSource [okSink "a"]).err = some "invalid utc from sql: bad"
    ∧ (processAgentJobs (demoEnv [demoFetched 11 0 70]) 1 invertedSource [okSink "a"]).err
        = none := by
  refine ⟨?_, ?_, ?_⟩ <;> decide

theorem setup_with_query (env : Env) (source : Source) (sinks : List Sinker) (last : Int)
    (rows rows' : List Fetched) (hq : env.getOffset = Except.ok last)
    (hrows : env.query last = Except.ok rows) :
    setup { env with query := fun _ => Except.ok rows' } source sinks
      = match setup env source sinks with
        | (Setup.exit o, ds) => (Setup.exit o, ds)
        | (Setup.ready r, ds) => (Setup.ready { r with rows := rows' }, ds) := by
  unfold setup guardAndOpen
  dsimp only
  cases h1 : env.connectionString with
  | error e => rfl
  | ok cs =>
    cases h2 : env.sqlOpen with
    | some e => rfl
    | none =>
      cases h3 : env.ping with
      | some e => rfl
      | none =>
        cases h4 : env.getInstance with
        | error e => rfl
        | ok info =>
          cases h5 : env.switchV2 with
          | some e => rfl
          | none =>
            cases h6 : env.checkDupe with
            | some e => rfl
            | none =>
              cases h7 : env.newFile with
              | some e => rfl
              | none =>
                simp only [hq]
                rcases hop : openSinks sinks 0 (replaceBackslash info.Server)
                  [Event.switchV2 none, Event.checkDupe none, Event.newFile none,
                    Event.getOffset none] [Deferred.safeClose, Deferred.safeClose]
                  with ⟨tr, ds1, err⟩
                cases err with
                | some e => rfl
                | none => simp only [hrows]

theorem loopBody_with_query (env : Env) (q : Int → Except Err (List Fetched))
    (source : Source) (sinks : List Sinker) (info : InstanceInfo) (st : LoopState)
    (f : Fetched) :
    loopBody { env with query := q } source sinks info st f
      = loopBody env source sinks info st f := rfl

theorem scanLoop_with_query (env : Env) (q : Int → Except Err (List Fetched))
    (source : Source) (sinks : List Sinker) (info : InstanceInfo) (rows : List Fetched)
    (st : LoopState) :
    scanLoop { env with query := q } source sinks info st rows
      = scanLoop env source sinks info st rows := by
  induction rows generalizing st with
  | nil => rfl
  | cons f rows ih =>
    simp only [scanLoop, loopBody_with_query]
    cases loopBody env source sinks info st f with
    | next st1 => exact ih st1
    | brk st1 => rfl
    | ret st1 e => rfl

theorem body_with_query (env : Env) (q : Int → Except Err (List Fetched))
    (source : Source) (sinks : List Sinker) (r : Ready) :
    body { env with query := q } source sinks r = body env source sinks r := by
  unfold body
  rw [scanLoop_with_query]
  rfl

theorem runDeferred_with_query (env : Env) (q : Int → Except Err (List Fetched))
    (ds : List Deferred) (o : Outcome) :
    runDeferred { env with query := q } ds o = runDeferred env ds o := by
  induction ds generalizing o with
  | nil => rfl
  | cons d ds ih =>
    cases d with
    | safeClose => simp only [runDeferred]; exact ih _
    | sinkClose i => simp only [runDeferred]; exact ih _

theorem ready_rows (env : Env) (source : Source) (sinks : List Sinker) (r : Ready)
    (ds : List Deferred) (last : Int) (rows : List Fetched)
    (hset : setup env source sinks = (Setup.ready r, ds))
    (hq : env.getOffset = Except.ok last) (hrows : env.query last = Except.ok rows) :
    r.lastInstanceID = last ∧ r.rows = rows := by
  have hspec := setup_spec env source sinks
  rw [hset] at hspec
  obtain ⟨_, _, h3, h4⟩ := hspec
  rw [hq] at h3
  simp only [Except.ok.injEq] at h3
  subst h3
  rw [hrows] at h4
  simp only [Except.ok.injEq] at h4
  exact ⟨rfl, h4.symm⟩

/-- C4, as the code has it: a row whose UTC timestamp is after `StopAt` and not
before `StartAt` (every row after `StopAt` when `StartAt ≤ StopAt`) stops the
scan.  From any loop state, the scan of that row and of whatever follows it
ends at once in the same state without an error, so neither that row nor a
later one is written or saved, whatever the later timestamps are; and the
whole run, result, error and calls alike, is the run in which the query
returns only the rows in front of that row, which goes on to flush, clean and
commit what was accepted. -/
theorem stop_boundary (env : Env) (wid : Int) (source : Source) (sinks : List Sinker)
    (last : Int) (pre rest : List Fetched) (j0 : jobResult) (t : Time)
    (hq : env.getOffset = Except.ok last)
    (hrows : env.query last = Except.ok (pre ++ Fetched.row j0 (Except.ok t) :: rest))
    (hstart : source.StartAt ≤ t) (hstop : source.StopAt < t) :
    (∀ info st, scanLoop env source sinks info st (Fetched.row j0 (Except.ok t) :: rest)
        = (st, none))
    ∧ processAgentJobs env wid source sinks
        = processAgentJobs { env with query := fun _ => Except.ok pre } wid source sinks := by
  constructor
  · intro info st
    have := scanLoop_stop env source sinks info j0 t hstart hstop [] rest st
    simpa [scanLoop] using this
  · have hset' := setup_with_query env source sinks last _ pre hq hrows
    rcases hset : setup env source sinks with ⟨s, ds⟩
    rw [hset] at hset'
    cases s with
    | exit o =>
      simp only at hset'
      rw [run_exit env wid source sinks o ds hset, run_exit _ wid source sinks o ds hset']
      exact (runDeferred_with_query env _ ds o).symm
    | ready r =>
      simp only at hset'
      obtain ⟨_, hr⟩ := ready_rows env source sinks r ds last _ hset hq hrows
      rw [run_ready env wid source sinks r ds hset, run_ready _ wid source sinks _ ds hset',
        runDeferred_with_query env (fun _ => Except.ok pre),
        body_with_query env (fun _ => Except.ok pre)]
      congr 1
      unfold body
      simp only [hr, scanLoop_stop env source sinks r.info j0 t hstart hstop]

theorem stop_boundary_witness :
    (demoEnv [demoFetched 11 0 150, demoFetched 12 0 260, demoFetched 13 0 150]).query 10
      = Except.ok ([demoFetched 11 0 150] ++ Fetched.row (demoRow 12 0) (Except.ok 260)
          :: [demoFetched 13 0 150])
    ∧ processAgentJobs
        (demoEnv [demoFetched 11 0 150, demoFetched 12 0 260, demoFetched 13 0 150]) 1
        (demoSource 0 JobsMode.JobsAll) [okSink "a", okSink "b"]
      = processAgentJobs
          { demoEnv [demoFetched 11 0 150, demoFetched 12 0 260, demoFetched 13 0 150] with
            query := fun _ => Except.ok [demoFetched 11 0 150] } 1
          (demoSource 0 JobsMode.JobsAll) [okSink "a", okSink "b"] :=
  ⟨rfl, (stop_boundary
    (demoEnv [demoFetched 11 0 150, demoFetched 12 0 260, demoFetched 13 0 150]) 1
    (demoSource 0 JobsMode.JobsAll) [okSink "a", okSink "b"] 10
    [demoFetched 11 0 150] [demoFetched 13 0 150] (demoRow 12 0) 260
    rfl rfl (by decide) (by decide)).2⟩

/-! ## The committed cursor (C2) -/

theorem savedCursors_append (a b : List Event) :
    savedCursors (a ++ b) = savedCursors a ++ savedCursors b := by
  simp [savedCursors]

theorem savedCursors_of_not_scan (l : List Event) (h : ∀ x ∈ l, x.isScan = false) :
    savedCursors l = [] := by
  simp only [savedCursors, List.filterMap_eq_nil_iff]
  intro x hx
  have := h x hx
  cases x <;> simp_all [Event.isScan, Event.savedCursor]

theorem savedCursors_writesOk (i n : Nat) (name rs : String) :
    savedCursors (writesOk i n name rs) = [] := by
  simp only [savedCursors, List.filterMap_eq_nil_iff]
  intro x hx
  obtain ⟨_, _, _, rfl⟩ := writesOk_mem _ _ _ _ _ hx
  rfl

theorem scan_saves (env : Env) (source : Source) (sinks : List Sinker) (info : InstanceInfo)
    (rows : List Fetched) (st st' : LoopState)
    (h : scanLoop env source sinks info st rows = (st', none)) :
    ∃ scanned rest, rows = scanned ++ rest
      ∧ savedCursors st'.trace = savedCursors st.trace ++ scanned.filterMap (accepted source)
      ∧ st'.instanceID = ((scanned.filterMap (accepted source)).getLast?).getD st.instanceID
      ∧ (scanned.filterMap (accepted source) ≠ [] → st'.gotRows = true)
      ∧ (scanned.filterMap (accepted source) = [] → st'.gotRows = st.gotRows) := by
  induction rows generalizing st with
  | nil =>
    simp only [scanLoop, Prod.mk.injEq, and_true] at h
    subst h
    exact ⟨[], [], rfl, by simp, by simp, by simp, by simp⟩
  | cons f rows ih =>
    unfold scanLoop at h
    cases hb : loopBody env source sinks info st f with
    | brk st1 =>
      rw [hb] at h
      simp only [Prod.mk.injEq, and_true] at h
      obtain ⟨h1, _⟩ := loopBody_brk _ _ _ _ _ _ _ hb
      subst h
      subst h1
      exact ⟨[], f :: rows, rfl, by simp, by simp, by simp, by simp⟩
    | ret st1 e =>
      rw [hb] at h
      simp at h
    | next st1 =>
      rw [hb] at h
      simp only at h
      obtain ⟨scanned, rest, hrows, hsaved, hid, hgot1, hgot2⟩ := ih st1 h
      obtain ⟨_, j0, t, hf, hcase⟩ := loopBody_next _ _ _ _ _ _ _ hb
      refine ⟨f :: scanned, rest, by simp [hrows], ?_⟩
      rcases hcase with ⟨hlt, h1⟩ | ⟨hs1, hs2, _, h1⟩ | ⟨hs1, hs2, _, rs0, rs, _, _, h1⟩
      · have hacc : accepted source f = none := by
          subst hf
          have : ¬ (source.StartAt ≤ t ∧ t ≤ source.StopAt) := fun hh =>
            absurd hh.1 (not_le.mpr hlt)
          simp [accepted, this]
        simp only [List.filterMap_cons, hacc]
        subst h1
        exact ⟨hsaved, hid, hgot1, hgot2⟩
      · have hacc : accepted source f = some j0.InstanceID := by
          subst hf
          simp [accepted, hs1, hs2]
        simp only [List.filterMap_cons, hacc]
        subst h1
        simp only [savedCursors_append] at hsaved
        refine ⟨?_, ?_, ?_, by simp⟩
        rotate_left 2
        · intro _
          by_cases hL : scanned.filterMap (accepted source) = []
          · exact hgot2 hL
          · exact hgot1 hL
        · rw [hsaved]; simp [savedCursors, Event.savedCursor]
        · rw [hid, List.getLast?_cons]; simp
      · have hacc : accepted source f = some j0.InstanceID := by
          subst hf
          simp [accepted, hs1, hs2]
        simp only [List.filterMap_cons, hacc]
        subst h1
        simp only [savedCursors_append, savedCursors_writesOk] at hsaved
        refine ⟨?_, ?_, ?_, by simp⟩
        rotate_left 2
        · intro _
          by_cases hL : scanned.filterMap (accepted source) = []
          · exact hgot2 hL
          · exact hgot1 hL
        · rw [hsaved]; simp [savedCursors, Event.savedCursor]
        · rw [hid, List.getLast?_cons]; simp

theorem accepted_sublist (source : Source) (l : List Fetched) :
    List.Sublist (l.filterMap (accepted source)) (l.filterMap Fetched.cursor) := by
  induction l with
  | nil => simp
  | cons f l ih =>
    cases f with
    | scanErr e => simpa [accepted, Fetched.cursor] using ih
    | row j ts =>
      cases ts with
      | error e =>
        simp only [List.filterMap_cons, accepted, Fetched.cursor]
        exact List.Sublist.cons _ ih
      | ok t =>
        by_cases hw : source.StartAt ≤ t ∧ t ≤ source.StopAt
        · simp only [List.filterMap_cons, accepted, Fetched.cursor, hw, and_self, if_true]
          exact List.Sublist.cons₂ _ ih
        · simp only [List.filterMap_cons, accepted, Fetched.cursor, hw, if_false]
          exact List.Sublist.cons _ ih

theorem le_last_of_sorted (l : List Int) (c : Int) (hs : l.Pairwise (· < ·))
    (hl : l.getLast? = some c) : ∀ x ∈ l, x ≤ c := by
  obtain ⟨ys, rfl⟩ := List.getLast?_eq_some_iff.1 hl
  intro x hx
  rcases List.mem_append.1 hx with h | h
  · rw [List.pairwise_append] at hs
    exact le_of_lt (hs.2.2 x h c (by simp))
  · simp at h
    exact le_of_eq h
theorem committed_cursor_ready (env : Env) (wid : Int) (source : Source) (sinks : List Sinker)
    (r : Ready) (ds : List Deferred)
    (hset : setup env source sinks = (Setup.ready r, ds))
    (hasc : List.Sorted (· < ·) (r.lastInstanceID :: r.rows.filterMap Fetched.cursor)) :
    env.getOffset = Except.ok r.lastInstanceID
    ∧ (∀ c rd, Event.done c rd ∈ (processAgentJobs env wid source sinks).trace →
        ∃ scanned rest, r.rows = scanned ++ rest
          ∧ savedCursors (processAgentJobs env wid source sinks).trace
              = scanned.filterMap (accepted source)
          ∧ (savedCursors (processAgentJobs env wid source sinks).trace).getLast? = some c
          ∧ (∀ c' ∈ savedCursors (processAgentJobs env wid source sinks).trace, c' ≤ c)
          ∧ r.lastInstanceID < c)
    ∧ (savedCursors (processAgentJobs env wid source sinks).trace = [] →
        ∀ c rd, Event.done c rd ∉ (processAgentJobs env wid source sinks).trace) := by
  have hspec := setup_spec env source sinks
  rw [hset] at hspec
  obtain ⟨hpre, _, hoff, _⟩ := hspec
  obtain ⟨st, e, d, fin, hscan, hst, hs, htr, _, hcase⟩ := body_spec env source sinks r
  have hP : (processAgentJobs env wid source sinks).trace
      = r.trace ++ d ++ fin ++ ds.map Deferred.event := by
    rw [run_ready env wid source sinks r ds hset, runDeferred_trace, htr]
  have hpost := deferred_isClosing ds
  have hfin : ∀ x ∈ fin, x.isEnd = true := by
    rcases hcase with ⟨_, _, rfl, _⟩ | ⟨_, h⟩
    · simp
    · exact h.isEnd
  have hsc_pre : savedCursors r.trace = [] :=
    savedCursors_of_not_scan _ (fun x hx => (x.setup_not_end (hpre x hx)).2.2.2)
  have hsc_fin : savedCursors fin = [] := by
    apply savedCursors_of_not_scan
    intro x hx
    have := hfin x hx
    cases x <;> simp_all [Event.isEnd, Event.isScan]
  have hsc_post : savedCursors (ds.map Deferred.event) = [] :=
    savedCursors_of_not_scan _ (fun x hx => (x.closing_not_end (hpost x hx)).2.2.2)
  have hsaved : savedCursors (processAgentJobs env wid source sinks).trace
      = savedCursors st.trace := by
    rw [hP, hst]
    simp [savedCursors_append, hsc_fin, hsc_post]
  -- a `Done` call can only come from the end of a run whose scan saved a row
  have hdone : ∀ c rd, Event.done c rd ∈ (processAgentJobs env wid source sinks).trace →
      e = none ∧ st.gotRows = true ∧ c = st.instanceID := by
    intro c rd hmem
    rw [hP] at hmem
    simp only [List.mem_append] at hmem
    rcases hmem with ((h | h) | h) | h
    · have := (Event.setup_not_end _ (hpre _ h)).1
      simp [Event.isDone] at this
    · have := (Event.scan_not_end _ (hs.isScan _ h)).1
      simp [Event.isDone] at this
    · rcases hcase with ⟨_, _, rfl, _⟩ | ⟨he, hend⟩
      · simp at h
      · rcases hend with ⟨_, rfl, _⟩ | ⟨hg, outs, _, ⟨_, _, rfl, _⟩ | ⟨_, rd0, rfl, _⟩⟩
        · simp at h
        · have := flushCleanEvents_not_done 0 outs _ h
          simp [Event.isDone] at this
        · rcases List.mem_append.1 h with h1 | h1
          · have := flushCleanEvents_not_done 0 outs _ h1
            simp [Event.isDone] at this
          · simp only [List.mem_singleton, Event.done.injEq] at h1
            exact ⟨he, hg, h1.1⟩
    · have := (Event.closing_not_end _ (hpost _ h)).1
      simp [Event.isDone] at this
  have hmain : ∀ c rd, Event.done c rd ∈ (processAgentJobs env wid source sinks).trace →
      ∃ scanned rest, r.rows = scanned ++ rest
        ∧ savedCursors (processAgentJobs env wid source sinks).trace
            = scanned.filterMap (accepted source)
        ∧ (savedCursors (processAgentJobs env wid source sinks).trace).getLast? = some c
        ∧ (∀ c' ∈ savedCursors (processAgentJobs env wid source sinks).trace, c' ≤ c)
        ∧ r.lastInstanceID < c := by
    intro c rd hmem
    obtain ⟨he, hg, hc⟩ := hdone c rd hmem
    subst he
    obtain ⟨scanned, rest, hrows, hsv, hid, hgot1, hgot2⟩ :=
      scan_saves env source sinks r.info r.rows _ st hscan
    simp only [hsc_pre, List.nil_append] at hsv
    have hne : scanned.filterMap (accepted source) ≠ [] := by
      intro hnil
      have := hgot2 hnil
      rw [hg] at this
      simp at this
    have hlast : (scanned.filterMap (accepted source)).getLast? = some c := by
      cases hl : (scanned.filterMap (accepted source)).getLast? with
      | none => exact absurd (List.getLast?_eq_none_iff.1 hl) hne
      | some c1 =>
        rw [hl] at hid
        simp only [Option.getD_some] at hid
        rw [hc, hid]
    have hsub : List.Sublist (r.lastInstanceID :: scanned.filterMap (accepted source))
        (r.lastInstanceID :: r.rows.filterMap Fetched.cursor) := by
      apply List.Sublist.cons₂
      refine (accepted_sublist source scanned).trans ?_
      rw [hrows, List.filterMap_append]
      exact List.sublist_append_left _ _
    have hpw : (r.lastInstanceID :: scanned.filterMap (accepted source)).Pairwise (· < ·) :=
      List.Pairwise.sublist hsub hasc
    rw [List.pairwise_cons] at hpw
    refine ⟨scanned, rest, hrows, by rw [hsaved, hsv], by rw [hsaved, hsv, hlast], ?_, ?_⟩
    · rw [hsaved, hsv]
      exact le_last_of_sorted _ c hpw.2 hlast
    · exact hpw.1 c (List.mem_of_getLast?_eq_some hlast)
  refine ⟨hoff, hmain, ?_⟩
  intro hnil c rd hmem
  obtain ⟨_, _, _, _, hlast, _, _⟩ := hmain c rd hmem
  rw [hnil] at hlast
  simp at hlast

theorem no_done_of_exit (env : Env) (wid : Int) (source : Source) (sinks : List Sinker)
    (o : Outcome) (ds : List Deferred) (hset : setup env source sinks = (Setup.exit o, ds)) :
    ∀ c rd, Event.done c rd ∉ (processAgentJobs env wid source sinks).trace := by
  have hspec := setup_spec env source sinks
  rw [hset] at hspec
  obtain ⟨hpre, _, _⟩ := hspec
  intro c rd hmem
  rw [run_exit env wid source sinks o ds hset, runDeferred_trace] at hmem
  rcases List.mem_append.1 hmem with h | h
  · have := (Event.setup_not_end _ (hpre _ h)).1
    simp [Event.isDone] at this
  · have := (Event.closing_not_end _ (deferred_isClosing ds _ h)).1
    simp [Event.isDone] at this

/-- C2: the committed cursor never decreases.  When `GetOffset` reads the
resume cursor `last` and the query returns for it rows with strictly ascending
`instance_id`s, all above `last`: whenever the run calls `Done` with a cursor
`c`, the `Save` calls of the run are exactly those of the rows of a scanned
front part of the row sequence that passed the time-window filter, `c` is the
cursor of the last of them, no saved cursor is higher than `c`, and `c` is
strictly above `last`; a run without a `Save` call (no row accepted) does not
call `Done`. -/
theorem committed_cursor (env : Env) (wid : Int) (source : Source) (sinks : List Sinker)
    (last : Int) (rows : List Fetched)
    (hq : env.getOffset = Except.ok last) (hrows : env.query last = Except.ok rows)
    (hasc : List.Sorted (· < ·) (last :: rows.filterMap Fetched.cursor)) :
    (∀ c rd, Event.done c rd ∈ (processAgentJobs env wid source sinks).trace →
        ∃ scanned rest, rows = scanned ++ rest
          ∧ savedCursors (processAgentJobs env wid source sinks).trace
              = scanned.filterMap (accepted source)
          ∧ (savedCursors (processAgentJobs env wid source sinks).trace).getLast? = some c
          ∧ (∀ c' ∈ savedCursors (processAgentJobs env wid source sinks).trace, c' ≤ c)
          ∧ last < c)
    ∧ (savedCursors (processAgentJobs env wid source sinks).trace = [] →
        ∀ c rd, Event.done c rd ∉ (processAgentJobs env wid source sinks).trace) := by
  rcases hset : setup env source sinks with ⟨s, ds⟩
  cases s with
  | exit o =>
    have hno := no_done_of_exit env wid source sinks o ds hset
    exact ⟨fun c rd hmem => absurd hmem (hno c rd), fun _ => hno⟩
  | ready r =>
    obtain ⟨h1, h2⟩ := ready_rows env source sinks r ds last rows hset hq hrows
    subst h1 h2
    exact (committed_cursor_ready env wid source sinks r ds hset hasc).2

theorem committed_cursor_witness :
    (demoEnv [demoFetched 11 0 150, demoFetched 12 1 50, demoFetched 13 1 160]).getOffset
        = Except.ok 10
    ∧ List.Sorted (· < ·)
        (10 :: [demoFetched 11 0 150, demoFetched 12 1 50, demoFetched 13 1 160].filterMap
          Fetched.cursor)
    ∧ Event.done 13 none ∈ (processAgentJobs
        (demoEnv [demoFetched 11 0 150, demoFetched 12 1 50, demoFetched 13 1 160]) 1
        (demoSource 0 JobsMode.JobsFailed) [okSink "a", okSink "b"]).trace
    ∧ savedCursors (processAgentJobs
        (demoEnv [demoFetched 11 0 150, demoFetched 12 1 50, demoFetched 13 1 160]) 1
        (demoSource 0 JobsMode.JobsFailed) [okSink "a", okSink "b"]).trace = [11, 13]
    ∧ ∃ scanned rest,
        [demoFetched 11 0 150, demoFetched 12 1 50, demoFetched 13 1 160] = scanned ++ rest
          ∧ savedCursors (processAgentJobs
              (demoEnv [demoFetched 11 0 150, demoFetched 12 1 50, demoFetched 13 1 160]) 1
              (demoSource 0 JobsMode.JobsFailed) [okSink "a", okSink "b"]).trace
            = scanned.filterMap (accepted (demoSource 0 JobsMode.JobsFailed))
          ∧ (savedCursors (processAgentJobs
              (demoEnv [demoFetched 11 0 150, demoFetched 12 1 50, demoFetched 13 1 160]) 1
              (demoSource 0 JobsMode.JobsFailed) [okSink "a", okSink "b"]).trace).getLast?
            = some 13
          ∧ (∀ c' ∈ savedCursors (processAgentJobs
              (demoEnv [demoFetched 11 0 150, demoFetched 12 1 50, demoFetched 13 1 160]) 1
              (demoSource 0 JobsMode.JobsFailed) [okSink "a", okSink "b"]).trace, c' ≤ 13)
          ∧ (10 : Int) < 13 :=
  ⟨rfl, by decide, by decide, by decide,
    (committed_cursor
      (demoEnv [demoFetched 11 0 150, demoFetched 12 1 50, demoFetched 13 1 160]) 1
      (demoSource 0 JobsMode.JobsFailed) [okSink "a", okSink "b"] 10
      [demoFetched 11 0 150, demoFetched 12 1 50, demoFetched 13 1 160]
      rfl rfl (by decide)).1 13 none (by decide)⟩

/-! ## The row cap (C5) -/

theorem writeCount_append (i : Nat) (a b : List Event) :
    writeCount i (a ++ b) = writeCount i a + writeCount i b := by
  simp [writeCount, List.countP_append]

theorem writeCount_of_not_write (i : Nat) (l : List Event) (h : ∀ x ∈ l, x.isWrite = false) :
    writeCount i l = 0 := by
  simp only [writeCount, List.countP_eq_zero]
  intro x hx
  have := h x hx
  cases x <;> simp_all [Event.isWrite]

theorem writeCount_writesOk (i n : Nat) (name rs : String) (hi : i < n) :
    writeCount i (writesOk 0 n name rs) = 1 := by
  have hfun : ((fun x => match x with
      | Event.write k _ _ _ => k == i
      | _ => false) ∘ fun k => Event.write k name rs none) = fun k => k == i := by
    funext k; rfl
  simp only [writeCount, writesOk, List.countP_map, hfun]
  have hmem : i ∈ List.range' 0 n := by simp [List.mem_range'_1, hi]
  have := List.count_eq_one_of_mem (List.nodup_range' 0 n) hmem
  simpa [List.count] using this

theorem eligible_inverted (source : Source) (h : source.StopAt < source.StartAt)
    (rows : List Fetched) : eligibleBeforeStop source rows = [] := by
  simp only [eligibleBeforeStop, List.filterMap_eq_nil_iff]
  intro f _
  cases f with
  | scanErr e => rfl
  | row j ts =>
    cases ts with
    | error e => rfl
    | ok t =>
      have : ¬ (source.StartAt ≤ t ∧ t ≤ source.StopAt ∧ deliver source (parsed j t) = true) := by
        rintro ⟨h1, h2, _⟩
        exact absurd (lt_of_le_of_lt (le_trans h1 h2) h) (lt_irrefl _)
      simp [eligible, this]

theorem eligible_cons_stop (source : Source) (j0 : jobResult) (t : Time) (rows : List Fetched)
    (h : source.StopAt < t) :
    eligibleBeforeStop source (Fetched.row j0 (Except.ok t) :: rows) = [] := by
  simp [eligibleBeforeStop, isStop, h]

theorem eligible_cons_skip (source : Source) (j0 : jobResult) (t : Time) (rows : List Fetched)
    (h : ¬ (source.StartAt ≤ t ∧ t ≤ source.StopAt ∧ deliver source (parsed j0 t) = true))
    (h2 : t < source.StartAt ∨ t ≤ source.StopAt) :
    eligibleBeforeStop source (Fetched.row j0 (Except.ok t) :: rows)
      = eligibleBeforeStop source rows := by
  by_cases hstop : source.StopAt < t
  · have hinv : source.StopAt < source.StartAt := by
      rcases h2 with h3 | h3
      · exact lt_trans hstop h3
      · exact absurd hstop (not_lt.mpr h3)
    rw [eligible_inverted source hinv, eligible_inverted source hinv]
  · simp [eligibleBeforeStop, isStop, hstop, eligible, h]

theorem eligible_cons_delivered (source : Source) (j0 : jobResult) (t : Time)
    (rows : List Fetched)
    (h : source.StartAt ≤ t ∧ t ≤ source.StopAt ∧ deliver source (parsed j0 t) = true) :
    eligibleBeforeStop source (Fetched.row j0 (Except.ok t) :: rows)
      = parsed j0 t :: eligibleBeforeStop source rows := by
  have hstop : ¬ source.StopAt < t := not_lt.mpr h.2.1
  simp [eligibleBeforeStop, isStop, hstop, eligible, h]

theorem scanLoop_capReached (env : Env) (source : Source) (sinks : List Sinker)
    (info : InstanceInfo) (rows : List Fetched) (st : LoopState) (h : capReached source st) :
    scanLoop env source sinks info st rows = (st, none) := by
  cases rows with
  | nil => rfl
  | cons f rows =>
    have hcap : source.Rows > 0 ∧ st.result.Rows ≥ source.Rows := h
    simp [scanLoop, loopBody, hcap]

theorem scan_rows (env : Env) (source : Source) (sinks : List Sinker) (info : InstanceInfo)
    (rows : List Fetched) (st st' : LoopState)
    (h : scanLoop env source sinks info st rows = (st', none)) :
    st.result.Rows ≤ st'.result.Rows
    ∧ (∀ i, i < sinks.length →
        (writeCount i st'.trace : Int)
          = writeCount i st.trace + (st'.result.Rows - st.result.Rows))
    ∧ (0 < source.Rows → st.result.Rows ≤ source.Rows →
        st'.result.Rows
          = min source.Rows (st.result.Rows + (eligibleBeforeStop source rows).length))
    ∧ (source.Rows ≤ 0 →
        st'.result.Rows = st.result.Rows + (eligibleBeforeStop source rows).length)
    ∧ (0 < source.Rows → st.result.Rows < source.Rows →
        source.Rows ≤ st.result.Rows + (eligibleBeforeStop source rows).length →
        ∃ j, (eligibleBeforeStop source rows)[(source.Rows - st.result.Rows - 1).toNat]?
              = some j
          ∧ st'.instanceID = j.InstanceID ∧ st'.gotRows = true) := by
  induction rows generalizing st with
  | nil =>
    simp only [scanLoop, Prod.mk.injEq, and_true] at h
    subst h
    refine ⟨le_refl _, by simp, ?_, by simp [eligibleBeforeStop], ?_⟩
    · intro _ hle
      simp [eligibleBeforeStop, hle]
    · intro _ hlt hle
      simp [eligibleBeforeStop] at hle
      omega
  | cons f rows ih =>
    unfold scanLoop at h
    cases hb : loopBody env source sinks info st f with
    | ret st1 e =>
      rw [hb] at h
      simp at h
    | brk st1 =>
      rw [hb] at h
      simp only [Prod.mk.injEq, and_true] at h
      obtain ⟨h1, hwhy⟩ := loopBody_brk _ _ _ _ _ _ _ hb
      subst h
      subst h1
      refine ⟨le_refl _, by simp, ?_, ?_, ?_⟩
      · intro hpos hle
        rcases hwhy with ⟨_, hge⟩ | ⟨j0, t, rfl, _, hstop⟩
        · have : st1.result.Rows = source.Rows := le_antisymm hle hge
          rw [this]
          simp
        · rw [eligible_cons_stop source j0 t rows hstop]
          simp [hle]
      · intro hnp
        rcases hwhy with ⟨hpos, _⟩ | ⟨j0, t, rfl, _, hstop⟩
        · omega
        · rw [eligible_cons_stop source j0 t rows hstop]
          simp
      · intro hpos hlt hle
        rcases hwhy with ⟨_, hge⟩ | ⟨j0, t, rfl, _, hstop⟩
        · omega
        · rw [eligible_cons_stop source j0 t rows hstop] at hle
          simp at hle
          omega
    | next st1 =>
      rw [hb] at h
      simp only at h
      obtain ⟨hmono, hwrites, hcapped, hfree, hcur⟩ := ih st1 h
      obtain ⟨hncap, j0, t, hf, hcase⟩ := loopBody_next _ _ _ _ _ _ _ hb
      subst hf
      rcases hcase with ⟨hlt, h1⟩ | ⟨hs1, hs2, hnd, h1⟩ | ⟨hs1, hs2, hdl, rs0, rs, _, _, h1⟩
      · -- the row is before `StartAt`: skipped
        have hE := eligible_cons_skip source j0 t rows
          (fun hh => absurd hh.1 (not_le.mpr hlt)) (Or.inl hlt)
        subst h1
        rw [hE]
        exact ⟨hmono, hwrites, hcapped, hfree, hcur⟩
      · -- the row is accepted and not delivered
        have hE := eligible_cons_skip source j0 t rows
          (fun hh => by rw [hnd] at hh; exact absurd hh.2.2 (by simp)) (Or.inr hs2)
        subst h1
        rw [hE]
        refine ⟨hmono, ?_, hcapped, hfree, hcur⟩
        intro i hi
        have := hwrites i hi
        simp only [writeCount_append] at this
        have hz : writeCount i [Event.save j0.InstanceID none] = 0 :=
          writeCount_of_not_write _ _ (by simp [Event.isWrite])
        rw [hz] at this
        simpa using this
      · -- the row is delivered
        have hE := eligible_cons_delivered source j0 t rows ⟨hs1, hs2, hdl⟩
        subst h1
        rw [hE]
        simp only at hmono hwrites hcapped hfree hcur
        refine ⟨by omega, ?_, ?_, ?_, ?_⟩
        · intro i hi
          have := hwrites i hi
          simp only [writeCount_append] at this
          have hz : writeCount i [Event.save j0.InstanceID none] = 0 :=
            writeCount_of_not_write _ _ (by simp [Event.isWrite])
          rw [hz, writeCount_writesOk i sinks.length j0.Name rs hi] at this
          push_cast at this
          omega
        · intro hpos hle
          have hlt : st.result.Rows < source.Rows := by
            by_contra hge
            exact hncap ⟨hpos, not_lt.mp hge⟩
          have := hcapped hpos (by omega)
          rw [this]
          simp only [List.length_cons]
          push_cast
          congr 1
          omega
        · intro hnp
          have := hfree hnp
          rw [this]
          simp only [List.length_cons]
          push_cast
          omega
        · intro hpos hlt hle
          simp only [List.length_cons] at hle
          push_cast at hle
          by_cases hfull : st.result.Rows + 1 = source.Rows
          · -- this delivery reaches the cap: the loop ends in front of the next row
            have hreach : capReached source
                { result := { st.result with Rows := st.result.Rows + 1 },
                  instanceID := j0.InstanceID, gotRows := true, startAtHit := st.startAtHit,
                  trace := st.trace ++ writesOk 0 sinks.length j0.Name rs
                    ++ [Event.save j0.InstanceID none] } := by
              constructor
              · exact hpos
              · show st.result.Rows + 1 ≥ source.Rows
                omega
            rw [scanLoop_capReached env source sinks info rows _ hreach] at h
            simp only [Prod.mk.injEq, and_true] at h
            subst h
            have hidx : (source.Rows - st.result.Rows - 1).toNat = 0 := by omega
            rw [hidx]
            exact ⟨parsed j0 t, by simp, rfl, rfl⟩
          · obtain ⟨j, hj, hid, hg⟩ := hcur hpos (by omega) (by omega)
            have hidx : (source.Rows - st.result.Rows - 1).toNat
                = (source.Rows - (st.result.Rows + 1) - 1).toNat + 1 := by omega
            rw [hidx]
            exact ⟨j, by simpa using hj, hid, hg⟩
theorem Event.setup_not_write (x : Event) (h : x.isSetup = true) : x.isWrite = false := by
  cases x <;> simp_all [Event.isSetup, Event.isWrite]

theorem Event.end_not_write (x : Event) (h : x.isEnd = true) : x.isWrite = false := by
  cases x <;> simp_all [Event.isEnd, Event.isWrite]

theorem Event.closing_not_write (x : Event) (h : x.isClosing = true) : x.isWrite = false := by
  cases x <;> simp_all [Event.isClosing, Event.isWrite]

/-- C5 fails as stated: with row cap 1, the rows above the cursor ascend and
hold one eligible row with no row after `StopAt` in front of it, and no sink
or status-file call fails; yet the first row has a `timestamp_utc` that does
not parse, the run ends there with that error, delivers nothing and commits
nothing. -/
theorem row_cap_counterexample :
    (eligibleBeforeStop (demoSource 1 JobsMode.JobsAll) badThenGood).length = 1
    ∧ List.Sorted (· < ·) (10 :: badThenGood.filterMap Fetched.cursor)
    ∧ (∀ x ∈ (processAgentJobs (demoEnv badThenGood) 1 (demoSource 1 JobsMode.JobsAll)
          [okSink "a"]).trace, x.failure = none)
    ∧ (processAgentJobs (demoEnv badThenGood) 1 (demoSource 1 JobsMode.JobsAll)
          [okSink "a"]).result.Rows = 0
    ∧ (processAgentJobs (demoEnv badThenGood) 1 (demoSource 1 JobsMode.JobsAll)
          [okSink "a"]).trace.countP Event.isDone = 0
    ∧ (processAgentJobs (demoEnv badThenGood) 1 (demoSource 1 JobsMode.JobsAll)
          [okSink "a"]).err = some "invalid utc from sql: bad" := by
  refine ⟨?_, ?_, ?_, ?_, ?_, ?_⟩ <;> decide

theorem row_cap_ready (env : Env) (wid : Int) (source : Source) (sinks : List Sinker)
    (r : Ready) (ds : List Deferred)
    (hset : setup env source sinks = (Setup.ready r, ds))
    (hsc : ∀ tr err, env.safeClose tr err = err)
    (herr : (processAgentJobs env wid source sinks).err = none) :
    (0 < source.Rows →
        (processAgentJobs env wid source sinks).result.Rows
          = min source.Rows ((eligibleBeforeStop source r.rows).length : Int))
    ∧ (source.Rows = 0 →
        (processAgentJobs env wid source sinks).result.Rows
          = (eligibleBeforeStop source r.rows).length)
    ∧ (∀ i, i < sinks.length →
        (writeCount i (processAgentJobs env wid source sinks).trace : Int)
          = (processAgentJobs env wid source sinks).result.Rows)
    ∧ (0 < source.Rows → source.Rows ≤ (eligibleBeforeStop source r.rows).length →
        (processAgentJobs env wid source sinks).result.Rows = source.Rows
        ∧ ∃ j, (eligibleBeforeStop source r.rows)[(source.Rows - 1).toNat]? = some j
          ∧ Event.done j.InstanceID none ∈ (processAgentJobs env wid source sinks).trace) := by
  have hspec := setup_spec env source sinks
  rw [hset] at hspec
  obtain ⟨hpre, hrows0, _, _⟩ := hspec
  obtain ⟨st, e, d, fin, hscan, hst, hs, htr, hres, hcase⟩ := body_spec env source sinks r
  have hrun := run_ready env wid source sinks r ds hset
  have hP : (processAgentJobs env wid source sinks).trace
      = st.trace ++ fin ++ ds.map Deferred.event := by
    rw [hrun, runDeferred_trace, htr, hst]
  have hR : (processAgentJobs env wid source sinks).result.Rows = st.result.Rows := by
    rw [hrun, runDeferred_result, hres]
  have hberr : (body env source sinks r).err = none := by
    rw [hrun, runDeferred_err env hsc] at herr
    exact herr
  have hpost := deferred_isClosing ds
  -- the scan ended without an error, and so did the end of the run
  have he : e = none := by
    rcases hcase with ⟨err, _, _, h3⟩ | ⟨h1, _⟩
    · rw [hberr] at h3; simp at h3
    · exact h1
  subst he
  have hend : EndShape sinks st.instanceID st.gotRows fin none := by
    rcases hcase with ⟨err, h1, _⟩ | ⟨_, h2⟩
    · simp at h1
    · rw [hberr] at h2; exact h2
  have hfin_w : ∀ x ∈ fin, x.isWrite = false :=
    fun x hx => x.end_not_write (hend.isEnd x hx)
  have hpost_w : ∀ x ∈ ds.map Deferred.event, x.isWrite = false :=
    fun x hx => x.closing_not_write (hpost x hx)
  have hpre_w : ∀ x ∈ r.trace, x.isWrite = false :=
    fun x hx => x.setup_not_write (hpre x hx)
  obtain ⟨_, hwrites, hcapped, hfree, hcur⟩ :=
    scan_rows env source sinks r.info r.rows _ st hscan
  simp only [hrows0] at hwrites hcapped hfree hcur
  have hcapped' : 0 < source.Rows →
      st.result.Rows = min source.Rows ((eligibleBeforeStop source r.rows).length : Int) := by
    intro hpos
    have := hcapped hpos (le_of_lt hpos)
    simpa using this
  refine ⟨?_, ?_, ?_, ?_⟩
  · intro hpos
    rw [hR]
    exact hcapped' hpos
  · intro hz
    rw [hR]
    have := hfree (le_of_eq hz)
    simpa using this
  · intro i hi
    rw [hR, hP]
    have := hwrites i hi
    simp only [writeCount_append, writeCount_of_not_write i fin hfin_w,
      writeCount_of_not_write i _ hpost_w]
    rw [writeCount_of_not_write i r.trace hpre_w] at this
    simpa using this
  · intro hpos hle
    have hrowsn : st.result.Rows = source.Rows := by
      rw [hcapped' hpos]
      exact min_eq_left hle
    obtain ⟨j, hj, hid, hg⟩ := hcur hpos hpos (by simpa using hle)
    refine ⟨by rw [hR, hrowsn], j, by simpa using hj, ?_⟩
    rw [hP]
    rcases hend with ⟨hg0, _⟩ | ⟨_, outs, _, ⟨_, _, _, h3⟩ | ⟨_, rd, hfin, h3⟩⟩
    · rw [hg] at hg0; simp at hg0
    · simp at h3
    · have hrd : rd = none := by
        cases rd with
        | none => rfl
        | some e1 => simp at h3
      subst hrd
      rw [hfin, ← hid]
      simp

/-- C5, as the code has it: in a run that returns no error (the deferred
`safeClose` handing the error on unchanged), with `rows` the rows the query
returns for the resume cursor and `E` the eligible rows in front of the first
row after `StopAt`: a positive row cap `n` makes the run deliver `min n |E|`
records, row cap 0 makes it deliver all `|E|`; every sink receives as many
writes as `result.Rows`; and when `0 < n ≤ |E|` the run delivers exactly `n`
records and commits, with a successful `Done`, the `instance_id` of the `n`-th
eligible row. -/
theorem row_cap (env : Env) (wid : Int) (source : Source) (sinks : List Sinker)
    (last : Int) (rows : List Fetched)
    (hq : env.getOffset = Except.ok last) (hrows : env.query last = Except.ok rows)
    (hsc : ∀ tr err, env.safeClose tr err = err)
    (herr : (processAgentJobs env wid source sinks).err = none) :
    (0 < source.Rows →
        (processAgentJobs env wid source sinks).result.Rows
          = min source.Rows ((eligibleBeforeStop source rows).length : Int))
    ∧ (source.Rows = 0 →
        (processAgentJobs env wid source sinks).result.Rows
          = (eligibleBeforeStop source rows).length)
    ∧ (∀ i, i < sinks.length →
        (writeCount i (processAgentJobs env wid source sinks).trace : Int)
          = (processAgentJobs env wid source sinks).result.Rows)
    ∧ (0 < source.Rows → source.Rows ≤ (eligibleBeforeStop source rows).length →
        (processAgentJobs env wid source sinks).result.Rows = source.Rows
        ∧ ∃ j, (eligibleBeforeStop source rows)[(source.Rows - 1).toNat]? = some j
          ∧ Event.done j.InstanceID none ∈ (processAgentJobs env wid source sinks).trace) := by
  rcases hset : setup env source sinks with ⟨s, ds⟩
  cases s with
  | exit o =>
    have hspec := setup_spec env source sinks
    rw [hset] at hspec
    obtain ⟨_, _, hne⟩ := hspec
    rw [run_exit env wid source sinks o ds hset, runDeferred_err env hsc] at herr
    exact absurd herr hne
  | ready r =>
    obtain ⟨h1, h2⟩ := ready_rows env source sinks r ds last rows hset hq hrows
    subst h1 h2
    exact row_cap_ready env wid source sinks r ds hset hsc herr

/-- The scenario of the specification: row cap 5 with ten eligible rows above
the cursor delivers five records to every sink and commits the cursor of the
fifth row. -/
theorem row_cap_witness :
    (demoEnv tenRows).query 10 = Except.ok tenRows
    ∧ (processAgentJobs (demoEnv tenRows) 1 (demoSource 5 JobsMode.JobsAll)
        [okSink "a", okSink "b"]).err = none
    ∧ (eligibleBeforeStop (demoSource 5 JobsMode.JobsAll) tenRows).length = 10
    ∧ Event.done 15 none ∈ (processAgentJobs (demoEnv tenRows) 1
        (demoSource 5 JobsMode.JobsAll) [okSink "a", okSink "b"]).trace
    ∧ (∀ i, i < 2 →
        (writeCount i (processAgentJobs (demoEnv tenRows) 1 (demoSource 5 JobsMode.JobsAll)
          [okSink "a", okSink "b"]).trace : Int)
          = (processAgentJobs (demoEnv tenRows) 1 (demoSource 5 JobsMode.JobsAll)
              [okSink "a", okSink "b"]).result.Rows)
    ∧ ((processAgentJobs (demoEnv tenRows) 1 (demoSource 5 JobsMode.JobsAll)
          [okSink "a", okSink "b"]).result.Rows = 5
      ∧ ∃ j, (eligibleBeforeStop (demoSource 5 JobsMode.JobsAll) tenRows)[4]? = some j
        ∧ Event.done j.InstanceID none ∈ (processAgentJobs (demoEnv tenRows) 1
            (demoSource 5 JobsMode.JobsAll) [okSink "a", okSink "b"]).trace) :=
  ⟨rfl, by decide, by decide, by decide,
    (row_cap (demoEnv tenRows) 1 (demoSource 5 JobsMode.JobsAll) [okSink "a", okSink "b"]
      10 tenRows rfl rfl (fun _ _ => rfl) (by decide)).2.2.1,
    (row_cap (demoEnv tenRows) 1 (demoSource 5 JobsMode.JobsAll) [okSink "a", okSink "b"]
      10 tenRows rfl rfl (fun _ _ => rfl) (by decide)).2.2.2 (by decide) (by decide)⟩

end XeLogstash
